import Mathlib

/-!
Verification development for the ragweld tri-modal retrieval engine.

This file gives a shallow embedding, in Lean 4, of the core pure logic of the
repository: the offset-preserving tokenizer (`server/indexing/tokenizer.py`),
the chunker (`server/indexing/chunker.py`), the chat provider router
(`server/chat/provider_router.py`), chat prompt assembly and the pre-network
phase of generation (`server/chat/generation.py`), and the configuration PATCH
endpoint (`server/api/config.py`).  Python strings are modelled as lists of
Unicode scalar values (`Str`), so indices are code-point indices as in CPython.
External collaborators that are not part of the repository (the `unicodedata`
module, `str.lower`, the tiktoken and HuggingFace tokenizers, the HTTP layer)
enter as explicit parameters; concrete stand-ins modelled from the spec are
provided for witnesses.
-/

/-- Python strings modelled as lists of Unicode scalar characters. -/
abbrev Str := List Char

/-- Python `s[a:b]` for non-negative bounds. -/
def pySlice (s : Str) (a b : Nat) : Str := (s.drop a).take (b - a)

/-- Python `s.strip()` (both-ends whitespace trim). -/
def pyStrip (s : Str) : Str :=
  ((s.dropWhile Char.isWhitespace).reverse.dropWhile Char.isWhitespace).reverse

/-- Python truthiness-based `a or b` on strings: `b` when `a` is empty. -/
def orElseStr (a b : String) : String := if a = "" then b else a

/-- Python `s.strip()` on `String` values (structural, over the character
list). -/
def pyStrTrim (s : String) : String := String.mk (pyStrip s.data)

/-- Python `c in s` for a single character. -/
def strContains (s : String) (c : Char) : Bool := s.data.contains c

/-- Python `s.split(c, 1)`: the part before the first occurrence of `c` and
the remainder (the whole string and `""` when `c` is absent). -/
def splitFirst (s : String) (c : Char) : String × String :=
  let pre := s.data.takeWhile (· ≠ c)
  (String.mk pre, String.mk (s.data.drop (pre.length + 1)))

/-- Python `s.endswith(t)` (structural). -/
def strEndsWith (s t : String) : Bool :=
  decide (t.data.length ≤ s.data.length) &&
    decide (s.data.drop (s.data.length - t.data.length) = t.data)

/-- Checks that `pat` is an initial segment of `s` (used to model `str.find` matches). -/
def strMatch : Str → Str → Bool
  | [], _ => true
  | _ :: _, [] => false
  | a :: as, b :: bs => a = b && strMatch as bs

/-- Fuel-driven scan for `strFind`; the fuel supplied by `strFind` always suffices. -/
def strFindGo (content sep : Str) (hi : Nat) : Nat → Nat → Option Nat
  | 0, _ => none
  | fuel+1, j =>
    if j + sep.length ≤ hi then
      if strMatch sep (content.drop j) then some j
      else strFindGo content sep hi fuel (j + 1)
    else none

/-- Python `content.find(sep, i, e)`: least match position, `none` for `-1`. -/
def strFind (content sep : Str) (i e : Nat) : Option Nat :=
  let hi := min e content.length
  strFindGo content sep hi (hi + 1) i

/- ----------------------------------------------------------------------
Unicode collaborators.  `unicodedata.normalize("NFKC", ·)` and `str.lower`
are CPython library functions, not repository code; the tokenizer only ever
uses them behind a length-preservation guard.  They are threaded through the
embedding as an explicit `UnicodeOps` parameter.
---------------------------------------------------------------------- -/

/-- External Unicode operations used by the tokenizer: NFKC normalization and
locale-aware lowercasing (both may change string length). -/
structure UnicodeOps where
  nfkc : Str → Str
  lower : Str → Str

/-- Modelled from the spec: NFKC normalization "may silently change string
length for some inputs (ligatures, dotted-I)".  The model expands the ligature
U+FB01 LATIN SMALL LIGATURE FI to "fi" and folds the fullwidth letter U+FF21 to
"A"; all other characters are untouched.  This matches real `unicodedata.normalize`
on exactly these code points. -/
def pyNfkcChar (c : Char) : Str :=
  if c = 'ﬁ' then ['f', 'i'] else if c = 'Ａ' then ['A'] else [c]

/-- Modelled NFKC on strings: concatenation of the per-character expansions. -/
def pyNfkc (s : Str) : Str := (s.map pyNfkcChar).flatten

/-- Modelled from the spec: lowercasing "can change length in some locales
(e.g., dotted I)".  U+0130 LATIN CAPITAL LETTER I WITH DOT ABOVE lowers to
"i" followed by U+0307 COMBINING DOT ABOVE; ASCII uppercase lowers in place;
all other characters are untouched. -/
def pyLowerChar (c : Char) : Str :=
  if c = 'İ' then ['i', '̇']
  else if 'A' ≤ c ∧ c ≤ 'Z' then [Char.ofNat (c.toNat + 32)]
  else [c]

/-- Modelled `str.lower` on strings. -/
def pyLower (s : Str) : Str := (s.map pyLowerChar).flatten

/-- The modelled CPython Unicode operations. -/
def pyUnicode : UnicodeOps := ⟨pyNfkc, pyLower⟩

/-- Python `s.lower()` on `String` values, via the modelled per-character
lowering. -/
def pyStrLower (s : String) : String := String.mk (pyLower s.data)

/-- A length-preserving application of `f` never changes which positions hold
whitespace.  Real NFKC and `str.lower` have this property; the modelled
`pyNfkc`/`pyLower` provably do. -/
def SpacePreservingLP (f : Str → Str) : Prop :=
  ∀ s : Str, (f s).length = s.length →
    (f s).map Char.isWhitespace = s.map Char.isWhitespace

/- ----------------------------------------------------------------------
External tokenizer collaborators (tiktoken / HuggingFace).
---------------------------------------------------------------------- -/

/-- Modelled from the spec: a tiktoken encoding "tokenizes to IDs with
per-token start offsets"; `decode_with_offsets` decodes the IDs back to the
input text and reports each token's start index.  The model is the token
segmentation itself: a list of non-empty pieces whose concatenation is the
input; start offsets are the partial sums of the piece lengths. -/
structure TiktokenEncoding where
  pieces : Str → List Str
  ids : Str → List Nat
  join_eq : ∀ s, (pieces s).flatten = s
  ne_nil : ∀ s p, p ∈ pieces s → p ≠ []

/-- Modelled from the spec: a HuggingFace fast tokenizer "uses
tokenizer-reported offsets; requires offset mapping".  The offset mapping is
an external contract: per-token `(start, end)` spans whose starts are
strictly increasing valid indices into the input (the spec data model
requires token starts to be "strictly non-decreasing" valid indices). -/
structure HFTokenizer where
  offsets : Str → List (Nat × Nat)
  input_ids : Str → List Nat
  starts_mono : ∀ s, List.Chain' (· < ·) ((offsets s).map Prod.fst)
  starts_lt : ∀ s p, p ∈ offsets s → p.1 < s.length

/-- The external tokenizer libraries, indexed by encoding / tokenizer name
(the name-indexed family absorbs the fallback-to-default behaviour of
`_get_tiktoken_encoding` and `_get_hf_tokenizer`). -/
structure ExtToks where
  tiktokenEnc : String → TiktokenEncoding
  hfTok : String → HFTokenizer

/-- Start offsets of a token segmentation: partial sums of piece lengths. -/
def segStarts : List Str → Nat → List Nat
  | [], _ => []
  | p :: ps, acc => acc :: segStarts ps (acc + p.length)

/- ----------------------------------------------------------------------
Tokenizer (server/indexing/tokenizer.py).
---------------------------------------------------------------------- -/

/-- `TokenizationConfig` from `server/models/tribrid_config_model.py`.  The
pydantic model itself is not under `src/`; the field set is the one consumed
by `tokenizer.py` and `chunker.py` (strategies, normalization flags, hard
token cap), with values left fully general. -/
structure TokenizationConfig where
  strategy : String
  normalize_unicode : Bool
  lowercase : Bool
  estimate_only : Bool
  tiktoken_encoding : String
  hf_tokenizer_name : String
  max_tokens_per_chunk_hard : Int
deriving Repr

/-- `TokenizationResult`: text together with token start offsets into it. -/
structure TokenizationResult where
  text : Str
  token_starts : List Nat
  token_ids : Option (List Nat)
deriving Repr

/-- `TextTokenizer.normalize`: apply NFKC and lowercasing, each only when it
preserves the string length. -/
def tokNormalize (u : UnicodeOps) (cfg : TokenizationConfig) (text : Str) : Str :=
  let t :=
    if cfg.normalize_unicode then
      let normed := u.nfkc text
      if normed.length = text.length then normed else text
    else text
  if cfg.lowercase then
    let lowered := u.lower t
    if lowered.length = t.length then lowered else t
  else t

/-- `TextTokenizer._normalize_length_preserving`: identical guard structure to
`normalize` (the `try/except` wrappers around the pure library calls are
dropped in the embedding). -/
def normalizeLengthPreserving (u : UnicodeOps) (cfg : TokenizationConfig) (text : Str) : Str :=
  let out :=
    if cfg.normalize_unicode then
      let norm := u.nfkc text
      if norm.length = text.length then norm else text
    else text
  if cfg.lowercase then
    let lowered := u.lower out
    if lowered.length = out.length then lowered else out
  else out

/-- `TextTokenizer.estimate_token_count`: `max(0, ceil(len(normalize(t)) / 4))`.
On naturals the expression is `(len + 3) / 4` (the float division is exact for
all realistic lengths). -/
def estimateTokenCount (u : UnicodeOps) (cfg : TokenizationConfig) (text : Str) : Nat :=
  ((tokNormalize u cfg text).length + 3) / 4

/-- The whitespace-scan loop of `_tokenize_whitespace`: `i` is the index of the
head of `cs` in the full text, `inTok` the loop flag. -/
def wsGo : Str → Nat → Bool → List Nat
  | [], _, _ => []
  | c :: cs, i, inTok =>
    if c.isWhitespace then wsGo cs (i + 1) false
    else if inTok then wsGo cs (i + 1) true
    else i :: wsGo cs (i + 1) true

/-- `TextTokenizer._tokenize_whitespace`: starts of maximal non-whitespace runs.
(Python's `str.isspace` covers a few more Unicode space characters than
`Char.isWhitespace`; the embedding uses the latter uniformly.) -/
def whitespaceStarts (t : Str) : List Nat := wsGo t 0 false

/-- `_tokenize_whitespace` packaged as a `TokenizationResult`. -/
def tokenizeWhitespace (t : Str) : TokenizationResult :=
  ⟨t, whitespaceStarts t, none⟩

/-- `TextTokenizer._tokenize_tiktoken` over the modelled encoding: ids from
`encode`, starts from `decode_with_offsets` (partial sums of piece lengths). -/
def tokenizeTiktoken (ex : ExtToks) (name : String) (t : Str) : TokenizationResult :=
  let enc := ex.tiktokenEnc (orElseStr name "o200k_base")
  ⟨t, segStarts (enc.pieces t) 0, some (enc.ids t)⟩

/-- `TextTokenizer._tokenize_hf` over the modelled fast tokenizer: starts are
the first components of the reported offset mapping. -/
def tokenizeHF (ex : ExtToks) (name : String) (t : Str) : TokenizationResult :=
  let tok := ex.hfTok (orElseStr name "gpt2")
  ⟨t, ((tok.offsets t).map Prod.fst), some (tok.input_ids t)⟩

/-- `str(self.config.strategy or "tiktoken").strip().lower()`. -/
def effStrategy (cfg : TokenizationConfig) : String :=
  pyStrLower (pyStrTrim (orElseStr cfg.strategy "tiktoken"))

/-- `TextTokenizer.tokenize_with_offsets`: length-preserving normalization,
then strategy dispatch (estimate-only synthesizes pseudo-token starts every
4 characters). -/
def tokenizeWithOffsets (u : UnicodeOps) (ex : ExtToks) (cfg : TokenizationConfig)
    (text : Str) : TokenizationResult :=
  let t := normalizeLengthPreserving u cfg text
  if cfg.estimate_only then
    ⟨t, List.range' 0 ((t.length + 3) / 4) 4, none⟩
  else
    let strat := effStrategy cfg
    if strat = "whitespace" then tokenizeWhitespace t
    else if strat = "huggingface" then tokenizeHF ex cfg.hf_tokenizer_name t
    else tokenizeTiktoken ex cfg.tiktoken_encoding t

/-- `TextTokenizer.count_tokens`. -/
def countTokens (u : UnicodeOps) (ex : ExtToks) (cfg : TokenizationConfig) (text : Str) : Nat :=
  if cfg.estimate_only then estimateTokenCount u cfg text
  else (tokenizeWithOffsets u ex cfg text).token_starts.length

/-- `TextTokenizer.truncate_by_tokens`.  The `mode="error"` branch raises
`ValueError`, modelled as `Except.error`. -/
def truncateByTokens (u : UnicodeOps) (ex : ExtToks) (cfg : TokenizationConfig)
    (text : Str) (maxTokens : Int) (mode : String) : Except String Str :=
  if maxTokens ≤ 0 then .ok []
  else
    let t := tokNormalize u cfg text
    if cfg.estimate_only then
      let approx := maxTokens * 4
      if (t.length : Int) ≤ approx then .ok t
      else if mode = "truncate_middle" then
        let half := max 1 (approx / 2)
        .ok (pyStrip (t.take half.toNat ++ ['…'] ++ t.drop (t.length - half.toNat)))
      else .ok (t.take approx.toNat)
    else
      let strat := effStrategy cfg
      let r :=
        if strat = "whitespace" then tokenizeWhitespace t
        else if strat = "huggingface" then tokenizeHF ex cfg.hf_tokenizer_name t
        else tokenizeTiktoken ex cfg.tiktoken_encoding t
      let n := r.token_starts.length
      if (n : Int) ≤ maxTokens then .ok t
      else
        let m := pyStrLower (pyStrTrim (orElseStr mode "truncate_end"))
        if m = "error" then
          .error ("text exceeds max tokens (" ++ toString n ++ " > " ++ toString maxTokens ++ ")")
        else if m = "truncate_middle" then
          let mt := maxTokens.toNat
          let head := mt / 2
          let tail := mt - head
          let headEnd := if head < n then r.token_starts.getD head 0 else t.length
          let tailStartTok := n - tail
          let tailStart := if tailStartTok < n then r.token_starts.getD tailStartTok 0 else t.length
          .ok (pyStrip (t.take headEnd ++ ['…'] ++ t.drop tailStart))
        else
          let mt := maxTokens.toNat
          .ok (t.take (if mt < n then r.token_starts.getD mt 0 else t.length))

/- ----------------------------------------------------------------------
Chunker (server/indexing/chunker.py).
---------------------------------------------------------------------- -/

/-- `ChunkingConfig` from `server/models/tribrid_config_model.py` (pydantic
model not under `src/`): field set consumed by `chunker.py`, values fully
general. -/
structure ChunkingConfig where
  chunking_strategy : String
  chunk_size : Int
  chunk_overlap : Int
  min_chunk_chars : Int
  max_chunk_tokens : Int
  target_tokens : Int
  overlap_tokens : Int
  separators : List Str
  separator_keep : String
  recursive_max_depth : Int
  markdown_max_heading_level : Int
  emit_chunk_ordinal : Bool
  emit_parent_doc_id : Bool
deriving Repr

/-- `Chunk` from `server/models/index.py` (not under `src/`).  The `metadata`
mapping entries written by the chunker (`char_start`, `char_end`,
`chunk_ordinal`, `parent_doc_id`) are modelled as explicit optional fields. -/
structure Chunk where
  chunk_id : String
  content : Str
  file_path : String
  start_line : Int
  end_line : Int
  language : Option String
  token_count : Int
  char_start : Int
  char_end : Int
  chunk_ordinal : Option Int
  parent_doc_id : Option String
deriving Repr

/-- Positions of newline characters in the document (`nl_positions`). -/
def nlPositions (content : Str) : List Nat :=
  (List.range content.length).filter (fun i => content.getD i ' ' = '\n')

/-- `bisect.bisect_left` on the sorted newline-position list equals the count
of elements strictly below `x`. -/
def bisectLeft (l : List Nat) (x : Nat) : Nat := l.countP (· < x)

/-- `Chunker._line_span`. -/
def lineSpan (nl : List Nat) (s e : Nat) (baseLine : Int) : Int × Int :=
  let startLine := baseLine + bisectLeft nl s
  let endLine := baseLine + bisectLeft nl (max s e)
  if endLine < startLine then (startLine, startLine) else (startLine, endLine)

/-- `Chunker._detect_language`. -/
def detectLanguage (fp : String) : Option String :=
  if strEndsWith fp ".py" then some "python"
  else if strEndsWith fp ".ts" || strEndsWith fp ".tsx" then some "typescript"
  else if strEndsWith fp ".js" || strEndsWith fp ".jsx" then some "javascript"
  else none

/-- `Chunker._normalize_strategy` (a `None` strategy is modelled as `""`). -/
def normalizeStrategy (v : String) : String :=
  let s := pyStrLower (pyStrTrim (orElseStr v "fixed_chars"))
  if s = "greedy" then "fixed_chars"
  else if s = "ast" ∨ s = "hybrid" ∨ s = "semantic" then "fixed_chars"
  else s

/-- The `while` loop of `_spans_fixed_chars` (fuel-driven; the fuel supplied
always suffices because the clamped overlap is below the window size). -/
def fixedCharsGo (size overlap n : Nat) : Nat → Nat → List (Nat × Nat)
  | 0, _ => []
  | fuel+1, start =>
    if start < n then
      let e := min n (start + size)
      if e = n then [(start, e)]
      else (start, e) :: fixedCharsGo size overlap n fuel (e - overlap)
    else []

/-- `Chunker._spans_fixed_chars`: windows of `chunk_size` characters with
`chunk_overlap` overlap, overlap clamped to `size // 5` when too large. -/
def spansFixedChars (ccfg : ChunkingConfig) (content : Str) : List (Nat × Nat) :=
  let size := (max 100 ccfg.chunk_size).toNat
  let overlap0 := (max 0 ccfg.chunk_overlap).toNat
  let overlap := if overlap0 ≥ size then size / 5 else overlap0
  fixedCharsGo size overlap content.length (content.length + 1) 0

/-- The `while` loop of `_spans_fixed_tokens` (fuel-driven; the fuel suffices
whenever the effective target is at least one token, which the validated
configuration guarantees). -/
def fixedTokGo (starts : List Nat) (textLen target overlap : Nat) :
    Nat → Nat → List (Nat × Nat)
  | 0, _ => []
  | fuel+1, st =>
    if st < starts.length then
      let et := min starts.length (st + target)
      let sc := starts.getD st 0
      let ec := if et < starts.length then starts.getD et 0 else textLen
      if starts.length ≤ et then [(sc, ec)]
      else (sc, ec) :: fixedTokGo starts textLen target overlap fuel (et - overlap)
    else []

/-- `Chunker._spans_fixed_tokens`.  Negative configured budgets (excluded by
the validated configuration, which requires `overlap_tokens < target_tokens`)
are clamped at zero by `Int.toNat`. -/
def spansFixedTokens (u : UnicodeOps) (ex : ExtToks) (tcfg : TokenizationConfig)
    (ccfg : ChunkingConfig) (content : Str) : List (Nat × Nat) :=
  let r := tokenizeWithOffsets u ex tcfg content
  let target : Int := min ccfg.target_tokens tcfg.max_tokens_per_chunk_hard
  let overlap : Int := min ccfg.overlap_tokens (max 0 (target - 1))
  let n := r.token_starts.length
  if n = 0 then (if pyStrip content ≠ [] then [(0, content.length)] else [])
  else fixedTokGo r.token_starts r.text.length target.toNat overlap.toNat (n + 1) 0

/-- The separator-position loop of the `prefix` branch of
`_split_span_by_separator` (fuel-driven; the supplied fuel always suffices).
The `nxt <= j` special case guards hypothetical zero-length separators. -/
def prefixCutsGo (content sep : Str) (e : Nat) : Nat → Nat → List Nat
  | 0, _ => []
  | fuel+1, pos =>
    match strFind content sep pos e with
    | none => []
    | some j =>
      j :: prefixCutsGo content sep e fuel (if j + sep.length ≤ j then j + 1 else j + sep.length)

/-- The `suffix`/`none` keep-mode loop of `_split_span_by_separator`
(fuel-driven), including the trailing-span append after the loop. -/
def splitKeepGo (content sep : Str) (endPos : Nat) (keep : String) :
    Nat → Nat → List (Nat × Nat)
  | 0, _ => []
  | fuel+1, i =>
    match strFind content sep i endPos with
    | none => if i < endPos then [(i, endPos)] else []
    | some j =>
      if keep = "suffix" then
        (i, j + sep.length) :: splitKeepGo content sep endPos keep fuel (j + sep.length)
      else
        (i, j) :: splitKeepGo content sep endPos keep fuel (j + sep.length)

/-- `Chunker._split_span_by_separator`. -/
def splitSpanBySeparator (u : UnicodeOps) (ex : ExtToks) (tcfg : TokenizationConfig)
    (ccfg : ChunkingConfig) (content : Str) (start endPos : Nat) (sep : Str)
    (keep : String) : List (Nat × Nat) :=
  if sep = [] then
    (spansFixedTokens u ex tcfg ccfg (pySlice content start endPos)).map
      (fun p => (start + p.1, start + p.2))
  else if keep = "prefix" then
    match strFind content sep start endPos with
    | none => if endPos > start then [(start, endPos)] else []
    | some _ =>
      let cuts := (start :: prefixCutsGo content sep endPos (endPos + 1) start) ++ [endPos]
      (cuts.zip cuts.tail).filter (fun p => p.2 > p.1)
  else
    (splitKeepGo content sep endPos keep (endPos + 1) start).filter (fun p => p.2 > p.1)

/-- The inner `rec` of `_spans_recursive`: descend the separator list up to
`recursive_max_depth`, keeping spans whose token count fits the target. -/
def recSpansGo (u : UnicodeOps) (ex : ExtToks) (tcfg : TokenizationConfig)
    (ccfg : ChunkingConfig) (content : Str) (seps : List Str) (keep : String)
    (maxDepth target : Int) (start endPos : Nat) (depth : Nat) : List (Nat × Nat) :=
  if endPos ≤ start then []
  else if maxDepth ≤ (depth : Int) then [(start, endPos)]
  else if (countTokens u ex tcfg (pySlice content start endPos) : Int) ≤ target then
    [(start, endPos)]
  else
    let sep := seps.getD (min depth (seps.length - 1)) []
    let pieces := splitSpanBySeparator u ex tcfg ccfg content start endPos sep keep
    pieces.flatMap (fun p => recSpansGo u ex tcfg ccfg content seps keep maxDepth target p.1 p.2 (depth + 1))
termination_by maxDepth.toNat - depth
decreasing_by omega

/-- The greedy packing loop shared by `_spans_recursive`, `_spans_sentence`
and `_spans_qa_blocks`; state is `(cur_s, cur_e, cur_tok)`.  The
`cur_e or cur_s` falsy-zero quirk of the source is preserved. -/
def packSpansGo (tok : Nat → Nat → Nat) (target : Int) :
    List (Nat × Nat) → Option (Nat × Nat × Nat) → List (Nat × Nat)
  | [], none => []
  | [], some (cs, ce, _) => [(cs, if ce = 0 then cs else ce)]
  | (s, e) :: rest, none => packSpansGo tok target rest (some (s, e, tok s e))
  | (s, e) :: rest, some (cs, ce, ct) =>
    let pt := tok s e
    if ((ct + pt : Nat) : Int) ≤ target then
      packSpansGo tok target rest (some (cs, e, ct + pt))
    else
      (cs, if ce = 0 then cs else ce) :: packSpansGo tok target rest (some (s, e, pt))

/-- Greedy packing of adjacent atomic spans by combined token count. -/
def packSpans (tok : Nat → Nat → Nat) (target : Int) (atoms : List (Nat × Nat)) :
    List (Nat × Nat) :=
  packSpansGo tok target atoms none

/-- `Chunker._spans_recursive`. -/
def spansRecursive (u : UnicodeOps) (ex : ExtToks) (tcfg : TokenizationConfig)
    (ccfg : ChunkingConfig) (content : Str) : List (Nat × Nat) :=
  let seps := if ccfg.separators = [] then [['\n', '\n'], ['\n'], ['.', ' '], [' '], []]
              else ccfg.separators
  let keep := pyStrLower (pyStrTrim (orElseStr ccfg.separator_keep "suffix"))
  let atomic := recSpansGo u ex tcfg ccfg content seps keep
    ccfg.recursive_max_depth ccfg.target_tokens 0 content.length 0
  packSpans (fun s e => countTokens u ex tcfg (pySlice content s e)) ccfg.target_tokens atomic

/-- Length of the maximal whitespace run starting at `pos`. -/
def wsRunLen (content : Str) (pos : Nat) : Nat :=
  ((content.drop pos).takeWhile Char.isWhitespace).length

/-- Length of the maximal `#` run starting at `pos`. -/
def hashRunLen (content : Str) (pos : Nat) : Nat :=
  ((content.drop pos).takeWhile (· = '#')).length

/-- Whether `i` is a line start (for the `re.MULTILINE` `^` anchor). -/
def isLineStart (content : Str) (i : Nat) : Bool :=
  i = 0 || content.getD (i - 1) ' ' = '\n'

/-- Position just past the `.+` run starting at `q` (next newline or end). -/
def findLineEnd (content : Str) (q : Nat) : Nat :=
  q + ((content.drop q).takeWhile (· ≠ '\n')).length

/-- Regex backtracking for `\s+.+$` when the whitespace run reaches end of
input: the largest `q` in `(p, p+w]` with a non-newline character. -/
def mdDotPlusStart (content : Str) (p w : Nat) : Option Nat :=
  (List.range' (p + 1) w).reverse.find?
    (fun q => q < content.length && content.getD q ' ' ≠ '\n')

/-- Match attempt of `^(#{1..L})\s+.+$` (with `re.MULTILINE`) at position `i`;
returns the end position of the greedy match.  Note Python's `\s` may cross
newlines, which the search over split points reflects. -/
def mdTryMatchEnd (content : Str) (L : Nat) (i : Nat) : Option Nat :=
  if isLineStart content i then
    let m := hashRunLen content i
    if 1 ≤ m ∧ m ≤ L then
      let p := i + m
      let w := wsRunLen content p
      if w = 0 then none
      else if p + w < content.length then some (findLineEnd content (p + w))
      else
        match mdDotPlusStart content p w with
        | some q => some (findLineEnd content q)
        | none => none
    else none
  else none

/-- The `re.finditer` scan for the markdown heading pattern: leftmost match,
then continue from its end. -/
def mdHitsGo (content : Str) (L : Nat) : Nat → Nat → List Nat
  | 0, _ => []
  | fuel+1, pos =>
    match (List.range' pos (content.length - pos)).find?
        (fun i => (mdTryMatchEnd content L i).isSome) with
    | none => []
    | some i =>
      match mdTryMatchEnd content L i with
      | some e => i :: mdHitsGo content L fuel (max e (i + 1))
      | none => []

/-- Start positions of markdown heading matches (`hits`).  A non-positive
heading level would make the Python regex construction fail; the embedding
returns no hits there. -/
def mdHits (content : Str) (L : Int) : List Nat :=
  if L.toNat = 0 then [] else mdHitsGo content L.toNat (content.length + 1) 0

/-- `Chunker._spans_markdown`. -/
def spansMarkdown (u : UnicodeOps) (ex : ExtToks) (tcfg : TokenizationConfig)
    (ccfg : ChunkingConfig) (content : Str) : List (Nat × Nat) :=
  let hits := mdHits content ccfg.markdown_max_heading_level
  if hits = [] then spansRecursive u ex tcfg ccfg content
  else
    let cuts := List.insertionSort (· ≤ ·) ((0 :: hits ++ [content.length]).dedup)
    ((cuts.zip cuts.tail).flatMap (fun p =>
      if p.2 ≤ p.1 then []
      else (spansRecursive u ex tcfg ccfg (pySlice content p.1 p.2)).map
        (fun q => (p.1 + q.1, p.1 + q.2)))).filter (fun p => p.2 > p.1)

/-- Maximal whitespace runs of the content, as `(start, end)` spans. -/
def wsRuns (content : Str) : List (Nat × Nat) :=
  (List.range content.length).filterMap (fun a =>
    if (content.getD a ' ').isWhitespace ∧ (a = 0 ∨ ¬ (content.getD (a - 1) ' ').isWhitespace)
    then some (a, a + wsRunLen content a) else none)

/-- The character class `[A-Z0-9"'(]` of the sentence-boundary lookahead. -/
def sentClass (c : Char) : Bool :=
  ('A' ≤ c && c ≤ 'Z') || ('0' ≤ c && c ≤ '9') || c = '"' || c = '\'' || c = '('

/-- Matches of `(?<=[.!?])\s+(?=[A-Z0-9"'(])`: maximal whitespace runs whose
predecessor is a sentence terminator and whose successor is in the class. -/
def sentMatches (content : Str) : List (Nat × Nat) :=
  (wsRuns content).filter (fun p =>
    decide (1 ≤ p.1) &&
    (content.getD (p.1 - 1) ' ' = '.' || content.getD (p.1 - 1) ' ' = '!' ||
      content.getD (p.1 - 1) ' ' = '?') &&
    decide (p.2 < content.length) && sentClass (content.getD p.2 ' '))

/-- The parts loop of `_spans_sentence`: split the content at the matches. -/
def sentPartsGo : List (Nat × Nat) → Nat → Nat → List (Nat × Nat)
  | [], start, n => if start < n then [(start, n)] else []
  | (a, b) :: rest, start, n =>
    if a > start then (start, a) :: sentPartsGo rest b n else sentPartsGo rest b n

/-- `Chunker._spans_sentence`. -/
def spansSentence (u : UnicodeOps) (ex : ExtToks) (tcfg : TokenizationConfig)
    (ccfg : ChunkingConfig) (content : Str) : List (Nat × Nat) :=
  packSpans (fun s e => countTokens u ex tcfg (pySlice content s e)) ccfg.target_tokens
    (sentPartsGo (sentMatches content) 0 content.length)

/-- Positions matching `^(?:Q:|A:)` with `re.MULTILINE`. -/
def qaHits (content : Str) : List Nat :=
  (List.range content.length).filter (fun i =>
    isLineStart content i &&
      (strMatch ['Q', ':'] (content.drop i) || strMatch ['A', ':'] (content.drop i)))

/-- `Chunker._spans_qa_blocks`. -/
def spansQaBlocks (u : UnicodeOps) (ex : ExtToks) (tcfg : TokenizationConfig)
    (ccfg : ChunkingConfig) (content : Str) : List (Nat × Nat) :=
  let hits := qaHits content
  if hits = [] then spansSentence u ex tcfg ccfg content
  else
    let cuts := List.insertionSort (· ≤ ·) ((0 :: hits ++ [content.length]).dedup)
    let parts := (cuts.zip cuts.tail).filter (fun p => p.2 > p.1)
    packSpans (fun s e => countTokens u ex tcfg (pySlice content s e)) ccfg.target_tokens parts

/-- The chunk-construction loop of `chunk_text`: spans are filtered for
positivity and the minimum character count, the ordinal advances only on
emitted chunks. -/
def buildChunksGo (u : UnicodeOps) (ex : ExtToks) (tcfg : TokenizationConfig)
    (ccfg : ChunkingConfig) (file_path : String) (content : Str)
    (baseChar baseLine : Int) (nl : List Nat) (language : Option String)
    (parent : Option String) (allowSmall : Bool) :
    List (Nat × Nat) → Int → List Chunk
  | [], _ => []
  | (s, e) :: rest, ordinal =>
    if e ≤ s then
      buildChunksGo u ex tcfg ccfg file_path content baseChar baseLine nl language parent allowSmall rest ordinal
    else
      let text := pySlice content s e
      if (text.length : Int) < ccfg.min_chunk_chars ∧ ¬ allowSmall then
        buildChunksGo u ex tcfg ccfg file_path content baseChar baseLine nl language parent allowSmall rest ordinal
      else
        let absStart := baseChar + s
        let sl := lineSpan nl s e baseLine
        { chunk_id := file_path ++ ":" ++ toString sl.1 ++ "-" ++ toString sl.2 ++ ":" ++ toString absStart
          content := text
          file_path := file_path
          start_line := sl.1
          end_line := sl.2
          language := language
          token_count := (countTokens u ex tcfg text : Int)
          char_start := absStart
          char_end := baseChar + e
          chunk_ordinal := if ccfg.emit_chunk_ordinal then some ordinal else none
          parent_doc_id := parent } ::
        buildChunksGo u ex tcfg ccfg file_path content baseChar baseLine nl language parent allowSmall rest (ordinal + 1)

/-- The token-window loop of `_split_chunk_by_tokens` (fuel-driven; the fuel
suffices whenever `max_tokens` is positive, which `chunk_text` guarantees). -/
def tokenWindowsGo (starts : List Nat) (textLen mt : Nat) : Nat → Nat → List (Nat × Nat)
  | 0, _ => []
  | fuel+1, st =>
    if st < starts.length then
      let et := min starts.length (st + mt)
      (starts.getD st 0, if et < starts.length then starts.getD et 0 else textLen) ::
        tokenWindowsGo starts textLen mt fuel et
    else []

/-- The sub-chunk construction loop of `_split_chunk_by_tokens`: the copied
metadata keeps the old ordinal / parent when not overwritten. -/
def splitBuildGo (u : UnicodeOps) (ex : ExtToks) (tcfg : TokenizationConfig)
    (ccfg : ChunkingConfig) (chunk : Chunk) (text : Str) (baseChar baseLine : Int)
    (nl : List Nat) (language : Option String) (parent : Option String) :
    List (Nat × Nat) → Int → List Chunk
  | [], _ => []
  | (s, e) :: rest, ordinal =>
    let sub := pySlice text s e
    if (sub.length : Int) < ccfg.min_chunk_chars then
      splitBuildGo u ex tcfg ccfg chunk text baseChar baseLine nl language parent rest ordinal
    else
      let absStart := baseChar + s
      let sl := lineSpan nl s e baseLine
      { chunk_id := chunk.file_path ++ ":" ++ toString sl.1 ++ "-" ++ toString sl.2 ++ ":" ++ toString absStart
        content := sub
        file_path := chunk.file_path
        start_line := sl.1
        end_line := sl.2
        language := language
        token_count := (countTokens u ex tcfg sub : Int)
        char_start := absStart
        char_end := baseChar + e
        chunk_ordinal := if ccfg.emit_chunk_ordinal then some ordinal else chunk.chunk_ordinal
        parent_doc_id := match parent with | some p => some p | none => chunk.parent_doc_id } ::
      splitBuildGo u ex tcfg ccfg chunk text baseChar baseLine nl language parent rest (ordinal + 1)

/-- `Chunker._split_chunk_by_tokens`. -/
def splitChunkByTokens (u : UnicodeOps) (ex : ExtToks) (ccfg : ChunkingConfig)
    (tcfg : TokenizationConfig) (chunk : Chunk) (maxTokens : Int)
    (language : Option String) (parent : Option String) : List Chunk :=
  let text := chunk.content
  let r := tokenizeWithOffsets u ex tcfg text
  let n := r.token_starts.length
  if (n : Int) ≤ maxTokens then [chunk]
  else
    let spans := tokenWindowsGo r.token_starts r.text.length maxTokens.toNat (n + 1) 0
    let baseChar := chunk.char_start
    let baseLine := if chunk.start_line = 0 then 1 else chunk.start_line
    let nl := nlPositions text
    splitBuildGo u ex tcfg ccfg chunk text baseChar baseLine nl language parent spans
      (chunk.chunk_ordinal.getD 0)

/-- `Chunker.chunk_text`: strategy dispatch, chunk construction, and the
hard-safety post-pass that re-splits any over-limit chunk by token windows. -/
def chunkText (u : UnicodeOps) (ex : ExtToks) (ccfg : ChunkingConfig)
    (tcfg : TokenizationConfig) (file_path : String) (content : Str)
    (baseChar baseLine startingOrdinal : Int) : List Chunk :=
  let strategy := normalizeStrategy ccfg.chunking_strategy
  let language := detectLanguage file_path
  let parent := if ccfg.emit_parent_doc_id then some file_path else none
  let nl := nlPositions content
  let spans :=
    if strategy = "fixed_tokens" then spansFixedTokens u ex tcfg ccfg content
    else if strategy = "recursive" then spansRecursive u ex tcfg ccfg content
    else if strategy = "markdown" then spansMarkdown u ex tcfg ccfg content
    else if strategy = "sentence" then spansSentence u ex tcfg ccfg content
    else if strategy = "qa_blocks" then spansQaBlocks u ex tcfg ccfg content
    else spansFixedChars ccfg content
  let allowSmall := spans.length = 1 && ¬ (pyStrip content = [])
  let chunks := buildChunksGo u ex tcfg ccfg file_path content baseChar baseLine nl
    language parent allowSmall spans startingOrdinal
  if 0 < ccfg.max_chunk_tokens && !(chunks.isEmpty) then
    chunks.flatMap (fun ch =>
      if ch.token_count ≤ ccfg.max_chunk_tokens then [ch]
      else splitChunkByTokens u ex ccfg tcfg ch ccfg.max_chunk_tokens language parent)
  else chunks

/-- `Chunker.chunk_file`. -/
def chunkFile (u : UnicodeOps) (ex : ExtToks) (ccfg : ChunkingConfig)
    (tcfg : TokenizationConfig) (file_path : String) (content : Str) : List Chunk :=
  chunkText u ex ccfg tcfg file_path content 0 1 0

/- ----------------------------------------------------------------------
Provider router (server/chat/provider_router.py).
---------------------------------------------------------------------- -/

/-- `LocalProviderEntry` from `server/models/chat_config.py` (not under
`src/`); fields as constructed in `test_provider_router.py`. -/
structure LocalProviderEntry where
  name : String
  provider_type : String
  base_url : String
  enabled : Bool
  priority : Int
deriving Repr, DecidableEq

/-- `LocalModelConfig` from `server/models/chat_config.py`. -/
structure LocalModelConfig where
  providers : List LocalProviderEntry
  default_chat_model : String
deriving Repr, DecidableEq

/-- `OpenRouterConfig` from `server/models/chat_config.py`. -/
structure OpenRouterConfig where
  enabled : Bool
  base_url : String
  default_model : String
  site_name : String
deriving Repr, DecidableEq

/-- `ChatConfig` from `server/models/chat_config.py` (the fields consumed by
`select_provider_route`). -/
structure ChatConfig where
  openrouter : OpenRouterConfig
  local_models : LocalModelConfig
deriving Repr, DecidableEq

/-- `ProviderRoute`. -/
structure ProviderRoute where
  kind : String
  provider_name : String
  base_url : String
  model : String
  api_key : Option String
deriving Repr, DecidableEq

/-- The sort key order of `sorted(enabled_local, key=lambda p: (p.priority, p.name))`:
lexicographic on `(priority, name)`. -/
def provLe (a b : LocalProviderEntry) : Prop :=
  a.priority < b.priority ∨ (a.priority = b.priority ∧ a.name ≤ b.name)

instance : DecidableRel provLe := fun a b => by
  unfold provLe; infer_instance

/-- CPython's stable `sorted` by key, modelled as stable insertion sort. -/
def pySortProviders (l : List LocalProviderEntry) : List LocalProviderEntry :=
  List.insertionSort provLe l

/-- Placeholder entry for the (unreachable) head of an empty sorted list. -/
def dummyProvider : LocalProviderEntry := ⟨"", "", "", false, 0⟩

/-- Parse of the explicit provider prefix in the model override:
`(override_kind, override_model)`. -/
def overrideParse (override : String) : String × String :=
  if strContains override ':' then
    let pr := splitFirst override ':'
    let p := pyStrLower (pyStrTrim pr.1)
    if p = "local" ∨ p = "openrouter" then (p, pyStrTrim pr.2) else ("", override)
  else ("", override)

/-- `select_provider_route`.  The process environment enters as the value of
`OPENROUTER_API_KEY` (`envKey`, `""` for unset). -/
def selectProviderRoute (chat_config : ChatConfig) (model_override : String)
    (envKey : String) : ProviderRoute :=
  let override := pyStrTrim model_override
  let openrouter_api_key := pyStrTrim envKey
  let ok := overrideParse override
  let override_kind := ok.1
  let override_model := ok.2
  let enabled_local := chat_config.local_models.providers.filter (·.enabled)
  let openrouter_ready := chat_config.openrouter.enabled && !(openrouter_api_key = "")
  if override_kind = "local" && !enabled_local.isEmpty then
    let chosen := (pySortProviders enabled_local).headD dummyProvider
    { kind := "local", provider_name := chosen.name, base_url := chosen.base_url
      model := orElseStr override_model chat_config.local_models.default_chat_model
      api_key := none }
  else if override_kind = "openrouter" || strContains override_model '/' then
    let model := orElseStr override_model chat_config.openrouter.default_model
    if openrouter_ready then
      { kind := "openrouter", provider_name := "OpenRouter"
        base_url := chat_config.openrouter.base_url, model := model
        api_key := some openrouter_api_key }
    else
      { kind := "cloud_direct", provider_name := "Cloud", base_url := ""
        model := model, api_key := none }
  else if openrouter_ready then
    { kind := "openrouter", provider_name := "OpenRouter"
      base_url := chat_config.openrouter.base_url
      model := orElseStr override_model chat_config.openrouter.default_model
      api_key := some openrouter_api_key }
  else if !enabled_local.isEmpty then
    let chosen := (pySortProviders enabled_local).headD dummyProvider
    { kind := "local", provider_name := chosen.name, base_url := chosen.base_url
      model := orElseStr override_model chat_config.local_models.default_chat_model
      api_key := none }
  else
    { kind := "cloud_direct", provider_name := "Cloud", base_url := ""
      model := orElseStr override_model
        (orElseStr chat_config.openrouter.default_model chat_config.local_models.default_chat_model)
      api_key := none }

/- ----------------------------------------------------------------------
ChunkMatch (server/models: not under src/; contract from the spec and
src/tests/unit/test_chunk_match_neighbor_source.py).
---------------------------------------------------------------------- -/

/-- `ChunkMatch` record (retrieval result).  The float `score` is modelled as
an exact rational; the `metadata` entries used by the core are explicit
optional fields. -/
structure ChunkMatch where
  chunk_id : String
  content : String
  file_path : String
  start_line : Int
  end_line : Int
  language : Option String
  score : Rat
  source : String
  metadata_corpus_id : Option String
  metadata_neighbor_of : Option String
deriving Repr, DecidableEq

/-- Modelled from the spec: the pydantic validation of `ChunkMatch`
(`server/models/tribrid_config_model.py` / `server/models/retrieval.py`, not
under `src/`) accepts `source ∈ {vector, sparse, graph}` and rejects any other
value — in particular `"neighbor"`, which the unit test
`test_chunk_match_rejects_neighbor_source` requires to fail. -/
def mkChunkMatch (chunk_id content file_path : String) (start_line end_line : Int)
    (language : Option String) (score : Rat) (source : String)
    (corpus_id neighbor_of : Option String) : Except String ChunkMatch :=
  if source = "vector" ∨ source = "sparse" ∨ source = "graph" then
    .ok ⟨chunk_id, content, file_path, start_line, end_line, language, score, source,
      corpus_id, neighbor_of⟩
  else .error ("validation error: source must be one of vector, sparse, graph; got " ++ source)

/- ----------------------------------------------------------------------
Chat generation (server/chat/generation.py).
---------------------------------------------------------------------- -/

/-- `ImageAttachment` (from `server/models/chat_config.py`, not under `src/`):
either a URL or base64 data with a MIME type. -/
structure ImageAttachment where
  url : Option String
  mime_type : String
  base64 : String
deriving Repr, DecidableEq

/-- One part of a multimodal user message (OpenAI content-part shape). -/
inductive ContentPart where
  | text (s : String)
  | image_url (url : String)
deriving Repr, DecidableEq

/-- Message content: plain string payload or content-part list. -/
inductive MsgContent where
  | str (s : String)
  | parts (ps : List ContentPart)
deriving Repr, DecidableEq

/-- An OpenAI-style chat message. -/
structure ChatMessage where
  role : String
  content : MsgContent
deriving Repr, DecidableEq

/-- The loop body of `_format_chunks_for_context`: one chunk rendered as a
header line plus a fenced content block. -/
def renderChunkForContext (ch : ChunkMatch) : String :=
  let header := "## " ++ ch.file_path ++ ":" ++ toString ch.start_line ++ "-" ++ toString ch.end_line
  let header :=
    match ch.language with
    | some l => if l = "" then header else header ++ " (" ++ l ++ ")"
    | none => header
  header ++ "\n```\n" ++ ch.content ++ "\n```"

/-- `_format_chunks_for_context`. -/
def formatChunksForContext (chunks : List ChunkMatch) : String :=
  if chunks.isEmpty then "No relevant context found."
  else String.intercalate "\n\n" (chunks.map renderChunkForContext)

/-- `_attachment_to_openai_part`. -/
def attachmentToOpenaiPart (att : ImageAttachment) : ContentPart :=
  match att.url with
  | some u => if u = "" then .image_url ("data:" ++ att.mime_type ++ ";base64," ++ att.base64)
              else .image_url u
  | none => .image_url ("data:" ++ att.mime_type ++ ";base64," ++ att.base64)

/-- `_build_messages`. -/
def buildMessages (system_prompt user_message : String) (images : List ImageAttachment) :
    List ChatMessage :=
  if images.isEmpty then
    [⟨"system", .str system_prompt⟩, ⟨"user", .str user_message⟩]
  else
    [⟨"system", .str system_prompt⟩,
     ⟨"user", .parts (ContentPart.text user_message :: images.map attachmentToOpenaiPart)⟩]

/-- `_openrouter_headers`. -/
def openrouterHeaders (api_key : String) (cfg : OpenRouterConfig) : List (String × String) :=
  let base := [("Authorization", "Bearer " ++ api_key), ("Content-Type", "application/json")]
  if pyStrTrim cfg.site_name = "" then base
  else base ++ [("X-Title", pyStrTrim cfg.site_name)]

/-- The context block computed by `generate_chat_text` / `stream_chat_text`:
an explicit `context_text` is stripped and used in place of the rendered
chunks. -/
def chatContextBlock (context_text : Option String) (context_chunks : List ChunkMatch) : String :=
  match context_text with
  | some ct => pyStrTrim ct
  | none => formatChunksForContext context_chunks

/-- The system prompt assembled by `generate_chat_text` / `stream_chat_text`. -/
def chatPrompt (system_prompt : String) (context_text : Option String)
    (context_chunks : List ChunkMatch) : String :=
  let block := chatContextBlock context_text context_chunks
  if block = "" then system_prompt else system_prompt ++ "\n\n## Context\n" ++ block

/-- Python `s.rstrip("/")`. -/
def rstripSlashes (s : String) : String :=
  String.mk (s.data.reverse.dropWhile (· = '/')).reverse

/-- The outgoing chat-completions request (temperature kept as an exact
rational stand-in for the float; no arithmetic is performed on it). -/
structure HttpRequest where
  url : String
  headers : List (String × String)
  model : String
  messages : List ChatMessage
  temperature : Rat
  max_tokens : Int
  stream : Bool
deriving Repr, DecidableEq

/-- The pre-network phase shared by `generate_chat_text` (`stream = false`)
and `stream_chat_text` (`stream = true`): prompt assembly, the `cloud_direct`
rejection, URL and header construction, and the request payload.  Raised
`RuntimeError`s are modelled as `Except.error`. -/
def chatRequestOf (stream : Bool) (route : ProviderRoute) (openrouter_cfg : OpenRouterConfig)
    (system_prompt user_message : String) (images : List ImageAttachment)
    (temperature : Rat) (max_tokens : Int) (context_text : Option String)
    (context_chunks : List ChunkMatch) : Except String HttpRequest :=
  let prompt := chatPrompt system_prompt context_text context_chunks
  let messages := buildMessages prompt user_message images
  if route.kind = "cloud_direct" then .error "No cloud_direct provider configured"
  else
    let base_url := rstripSlashes route.base_url
    let url := if route.kind = "openrouter" then base_url ++ "/chat/completions"
               else base_url ++ "/v1/chat/completions"
    if route.kind = "openrouter" ∧ (route.api_key.getD "") = "" then
      .error "OpenRouter enabled but OPENROUTER_API_KEY is not set"
    else
      let headers := if route.kind = "openrouter"
        then openrouterHeaders (route.api_key.getD "") openrouter_cfg
        else [("Content-Type", "application/json")]
      .ok ⟨url, headers, route.model, messages, temperature, max_tokens, stream⟩

/-- `generate_chat_text`: the HTTP round trip and JSON extraction of
`choices[0].message.content` are modelled by the oracle `net` (applied only
after the pre-network checks pass). -/
def generateChatText (net : HttpRequest → Except String String) (route : ProviderRoute)
    (openrouter_cfg : OpenRouterConfig) (system_prompt user_message : String)
    (images : List ImageAttachment) (temperature : Rat) (max_tokens : Int)
    (context_text : Option String) (context_chunks : List ChunkMatch) :
    Except String String :=
  match chatRequestOf false route openrouter_cfg system_prompt user_message images
      temperature max_tokens context_text context_chunks with
  | .error e => .error e
  | .ok req => net req

/-- One step of the SSE line loop of `stream_chat_text`: `parseDelta` models
`json.loads` plus the `choices[0].delta.content` extraction (returning `none`
for unparseable or delta-free payloads). -/
def processSSELines (parseDelta : String → Option String) : List String → List String
  | [] => []
  | raw :: rest =>
    let line := pyStrTrim raw
    if line = "" then processSSELines parseDelta rest
    else if !(strMatch "data:".data line.data) then processSSELines parseDelta rest
    else
      let ds := pyStrTrim (String.mk (line.data.drop 5))
      if ds = "[DONE]" then []
      else
        match parseDelta ds with
        | some d => if d = "" then processSSELines parseDelta rest
                    else d :: processSSELines parseDelta rest
        | none => processSSELines parseDelta rest

/-- `stream_chat_text`: the streaming HTTP body is modelled by the oracle
`net` returning raw SSE lines, post-processed by the delta-extraction loop. -/
def streamChatText (net : HttpRequest → Except String (List String))
    (parseDelta : String → Option String) (route : ProviderRoute)
    (openrouter_cfg : OpenRouterConfig) (system_prompt user_message : String)
    (images : List ImageAttachment) (temperature : Rat) (max_tokens : Int)
    (context_text : Option String) (context_chunks : List ChunkMatch) :
    Except String (List String) :=
  match chatRequestOf true route openrouter_cfg system_prompt user_message images
      temperature max_tokens context_text context_chunks with
  | .error e => .error e
  | .ok req =>
    match net req with
    | .error e => .error e
    | .ok lines => .ok (processSSELines parseDelta lines)

/- ----------------------------------------------------------------------
Config PATCH endpoint (server/api/config.py).
---------------------------------------------------------------------- -/

/-- `update_config_section` (`PATCH /api/config/{section}`): the handler body
is `raise NotImplementedError`, modelled as an unconditional error.  The
response model (`TriBridConfig`) is never produced, so the success type is
irrelevant; updates are an opaque key/value mapping. -/
def updateConfigSection (sectionName : String) (updates : List (String × String)) :
    Except String Unit :=
  .error "NotImplementedError"

/- ----------------------------------------------------------------------
Witness stand-ins and specification predicates.
---------------------------------------------------------------------- -/

/-- A trivial instance of the external tokenizers (whole text as one piece),
used to instantiate theorems whose hypotheses route around the external
strategies. -/
def trivExt : ExtToks :=
  { tiktokenEnc := fun _ =>
      { pieces := fun s => if s = [] then [] else [s]
        ids := fun _ => []
        join_eq := by intro s; by_cases h : s = [] <;> simp [h]
        ne_nil := by intro s p hp; by_cases h : s = [] <;> simp [h] at hp; simp [hp, h] }
    hfTok := fun _ =>
      { offsets := fun _ => []
        input_ids := fun _ => []
        starts_mono := by intro s; simp
        starts_lt := by intro s p hp; simp at hp } }

/-- A HuggingFace tokenizer satisfying the offset contract whose subword
segmentation depends on context (as real BPE merges do): a four-character
input tokenizes into two two-character tokens, while a two-character input
tokenizes into two single-character tokens. -/
def hfCx : HFTokenizer :=
  { offsets := fun s =>
      if s.length = 4 then [(0, 2), (2, 4)]
      else if s.length = 2 then [(0, 1), (1, 2)]
      else []
    input_ids := fun s =>
      if s.length = 4 then [0, 1] else if s.length = 2 then [2, 3] else []
    starts_mono := by
      intro s
      by_cases h4 : s.length = 4
      · simp [h4]
      · by_cases h2 : s.length = 2 <;> simp [h4, h2]
    starts_lt := by
      intro s p hp
      dsimp only at hp
      by_cases h4 : s.length = 4
      · rw [if_pos h4] at hp
        simp at hp
        rw [h4]
        rcases hp with rfl | rfl <;> decide
      · rw [if_neg h4] at hp
        by_cases h2 : s.length = 2
        · rw [if_pos h2] at hp
          simp at hp
          rw [h2]
          rcases hp with rfl | rfl <;> decide
        · rw [if_neg h2] at hp
          simp at hp }

/-- External tokenizers whose huggingface member is the context-dependent
`hfCx`. -/
def cxExt : ExtToks :=
  { tiktokenEnc := trivExt.tiktokenEnc
    hfTok := fun _ => hfCx }

/-- Specification predicate: `x` is the start of a maximal non-whitespace run
of `t` (positions at or past the end never qualify, since the default
character is whitespace). -/
def wsIsStart (t : Str) (x : Nat) : Bool :=
  !(t.getD x ' ').isWhitespace && (x = 0 || (t.getD (x - 1) ' ').isWhitespace)

/-- The loop-state predicate behind `wsGo`: relative position `k` in the
remaining text `cs` is a token start given the `inTok` flag `b`. -/
def wsPredAux (cs : Str) (b : Bool) (k : Nat) : Bool :=
  !(cs.getD k ' ').isWhitespace && (if k = 0 then !b else (cs.getD (k - 1) ' ').isWhitespace)

/-- Closed form of the whitespace token starts: positions of `t` satisfying
`wsIsStart`, in increasing order. -/
def wsStartsSpec (t : Str) : List Nat :=
  (List.range t.length).filter (fun k => wsIsStart t k)

/- ----------------------------------------------------------------------
Lemmas: the modelled Unicode operations.
---------------------------------------------------------------------- -/

theorem char_eq_of_toNat_eq {a b : Char} (h : a.toNat = b.toNat) : a = b :=
  Char.eq_of_val_eq (UInt32.eq_of_toBitVec_eq (BitVec.eq_of_toNat_eq h))

theorem char_toNat_ofNat (n : Nat) (h : Nat.isValidChar n) : (Char.ofNat n).toNat = n := by
  unfold Char.ofNat
  rw [dif_pos h]
  simp [Char.ofNatAux, Char.toNat, UInt32.toNat]

theorem isWs_ofNat_false (m : Nat) (h1 : 97 ≤ m) (h2 : m ≤ 122) :
    (Char.ofNat m).isWhitespace = false := by
  have hv : Nat.isValidChar m := Or.inl (by omega)
  have ht : (Char.ofNat m).toNat = m := char_toNat_ofNat m hv
  simp only [Char.isWhitespace, Bool.or_eq_false_iff, decide_eq_false_iff_not]
  refine ⟨⟨⟨?_, ?_⟩, ?_⟩, ?_⟩ <;> intro heq <;> rw [heq] at ht
  · have hs : (' ' : Char).toNat = 32 := rfl
    omega
  · have hs : ('\t' : Char).toNat = 9 := rfl
    omega
  · have hs : ('\r' : Char).toNat = 13 := rfl
    omega
  · have hs : ('\n' : Char).toNat = 10 := rfl
    omega

theorem isWs_upper_false (c : Char) (h1 : 'A' ≤ c) (h2 : c ≤ 'Z') :
    c.isWhitespace = false := by
  have hl : (65 : Nat) ≤ c.toNat := h1
  have hr : c.toNat ≤ 90 := h2
  simp only [Char.isWhitespace, Bool.or_eq_false_iff, decide_eq_false_iff_not]
  refine ⟨⟨⟨?_, ?_⟩, ?_⟩, ?_⟩ <;> intro heq <;> rw [heq] at hl hr
  · have hs : (' ' : Char).toNat = 32 := rfl
    omega
  · have hs : ('\t' : Char).toNat = 9 := rfl
    omega
  · have hs : ('\r' : Char).toNat = 13 := rfl
    omega
  · have hs : ('\n' : Char).toNat = 10 := rfl
    omega

theorem pyNfkc_nil : pyNfkc [] = [] := rfl

theorem pyNfkc_cons (c : Char) (s : Str) : pyNfkc (c :: s) = pyNfkcChar c ++ pyNfkc s := by
  simp [pyNfkc]

theorem pyNfkc_length (s : Str) :
    (pyNfkc s).length = s.length + s.countP (fun c => c = 'ﬁ') := by
  induction s with
  | nil => rfl
  | cons c s ih =>
    rw [pyNfkc_cons, List.length_append, ih, List.countP_cons]
    by_cases h : c = 'ﬁ'
    · simp [pyNfkcChar, h]
      omega
    · by_cases hA : c = 'Ａ' <;> simp [pyNfkcChar, h, hA] <;> omega

theorem pyNfkc_map_ws_of_no_fi (s : Str) (h : s.countP (fun c => c = 'ﬁ') = 0) :
    (pyNfkc s).map Char.isWhitespace = s.map Char.isWhitespace := by
  induction s with
  | nil => rfl
  | cons c s ih =>
    rw [List.countP_cons] at h
    have hcne : c ≠ 'ﬁ' := by
      intro hcc
      rw [hcc] at h
      simp at h
    have hs : s.countP (fun c => c = 'ﬁ') = 0 := by
      rw [if_neg (by simp [hcne])] at h
      simpa using h
    rw [pyNfkc_cons, List.map_append, ih hs, List.map_cons]
    by_cases hA : c = 'Ａ'
    · subst hA
      simp [pyNfkcChar]
      try decide
    · simp [pyNfkcChar, hcne, hA]

theorem pyNfkc_sp : SpacePreservingLP pyNfkc := by
  intro s h
  rw [pyNfkc_length] at h
  exact pyNfkc_map_ws_of_no_fi s (by omega)

theorem pyLower_nil : pyLower [] = [] := rfl

theorem pyLower_cons (c : Char) (s : Str) : pyLower (c :: s) = pyLowerChar c ++ pyLower s := by
  simp [pyLower]

theorem pyLowerChar_length (c : Char) :
    (pyLowerChar c).length = if c = 'İ' then 2 else 1 := by
  by_cases h : c = 'İ'
  · simp [pyLowerChar, h]
  · by_cases h2 : 'A' ≤ c ∧ c ≤ 'Z' <;> simp [pyLowerChar, h, h2]

theorem pyLower_length (s : Str) :
    (pyLower s).length = s.length + s.countP (fun c => c = 'İ') := by
  induction s with
  | nil => rfl
  | cons c s ih =>
    rw [pyLower_cons, List.length_append, ih, List.countP_cons, pyLowerChar_length]
    by_cases h : c = 'İ' <;> simp [h] <;> omega

theorem pyLowerChar_map_ws (c : Char) (h : c ≠ 'İ') :
    (pyLowerChar c).map Char.isWhitespace = [c.isWhitespace] := by
  by_cases h2 : 'A' ≤ c ∧ c ≤ 'Z'
  · have hup := isWs_upper_false c h2.1 h2.2
    have hlo := isWs_ofNat_false (c.toNat + 32)
      (by have : (65 : Nat) ≤ c.toNat := h2.1; omega)
      (by have : c.toNat ≤ 90 := h2.2; omega)
    simp [pyLowerChar, h, h2, hup, hlo]
  · simp [pyLowerChar, h, h2]

theorem pyLower_map_ws_of_no_dottedI (s : Str) (h : s.countP (fun c => c = 'İ') = 0) :
    (pyLower s).map Char.isWhitespace = s.map Char.isWhitespace := by
  induction s with
  | nil => rfl
  | cons c s ih =>
    rw [List.countP_cons] at h
    have hc : c ≠ 'İ' := by
      intro hcc
      rw [hcc] at h
      simp at h
    have hs : s.countP (fun c => c = 'İ') = 0 := by
      rw [if_neg (by simp [hc])] at h
      simpa using h
    rw [pyLower_cons, List.map_append, ih hs, pyLowerChar_map_ws c hc, List.map_cons]
    rfl

theorem pyLower_sp : SpacePreservingLP pyLower := by
  intro s h
  rw [pyLower_length] at h
  exact pyLower_map_ws_of_no_dottedI s (by omega)

/- ----------------------------------------------------------------------
Lemmas: normalization.
---------------------------------------------------------------------- -/

theorem step_len (f : Str → Str) (s : Str) :
    (if (f s).length = s.length then f s else s).length = s.length := by
  split_ifs with h
  · exact h
  · rfl

theorem step_map_ws (f : Str → Str) (hf : SpacePreservingLP f) (s : Str) :
    (if (f s).length = s.length then f s else s).map Char.isWhitespace
      = s.map Char.isWhitespace := by
  split_ifs with h
  · exact hf s h
  · rfl

theorem tokNormalize_length (u : UnicodeOps) (cfg : TokenizationConfig) (s : Str) :
    (tokNormalize u cfg s).length = s.length := by
  unfold tokNormalize
  by_cases h1 : cfg.normalize_unicode <;> by_cases h2 : cfg.lowercase <;>
    simp only [h1, h2, if_true, if_false, Bool.false_eq_true]
  all_goals
    first
      | rfl
      | exact (step_len u.lower _).trans (step_len u.nfkc s)
      | exact step_len u.nfkc s
      | exact step_len u.lower s

theorem normalizeLengthPreserving_length (u : UnicodeOps) (cfg : TokenizationConfig) (s : Str) :
    (normalizeLengthPreserving u cfg s).length = s.length := by
  unfold normalizeLengthPreserving
  by_cases h1 : cfg.normalize_unicode <;> by_cases h2 : cfg.lowercase <;>
    simp only [h1, h2, if_true, if_false, Bool.false_eq_true]
  all_goals
    first
      | rfl
      | exact (step_len u.lower _).trans (step_len u.nfkc s)
      | exact step_len u.nfkc s
      | exact step_len u.lower s

theorem normalizeLengthPreserving_map_ws (u : UnicodeOps) (cfg : TokenizationConfig)
    (hn : SpacePreservingLP u.nfkc) (hl : SpacePreservingLP u.lower) (s : Str) :
    (normalizeLengthPreserving u cfg s).map Char.isWhitespace = s.map Char.isWhitespace := by
  unfold normalizeLengthPreserving
  by_cases h1 : cfg.normalize_unicode <;> by_cases h2 : cfg.lowercase <;>
    simp only [h1, h2, if_true, if_false, Bool.false_eq_true]
  all_goals
    first
      | rfl
      | exact (step_map_ws u.lower hl _).trans (step_map_ws u.nfkc hn s)
      | exact step_map_ws u.nfkc hn s
      | exact step_map_ws u.lower hl s

theorem normalizeLengthPreserving_id (u : UnicodeOps) (cfg : TokenizationConfig)
    (hn : cfg.normalize_unicode = false) (hl : cfg.lowercase = false) (s : Str) :
    normalizeLengthPreserving u cfg s = s := by
  simp [normalizeLengthPreserving, hn, hl]

theorem tokNormalize_id (u : UnicodeOps) (cfg : TokenizationConfig)
    (hn : cfg.normalize_unicode = false) (hl : cfg.lowercase = false) (s : Str) :
    tokNormalize u cfg s = s := by
  simp [tokNormalize, hn, hl]

/- ----------------------------------------------------------------------
Lemmas: whitespace tokenization theory.
---------------------------------------------------------------------- -/

theorem wsPredAux_succ (c : Char) (cs : Str) (b : Bool) (k : Nat) :
    wsPredAux (c :: cs) b (k + 1) = wsPredAux cs (!c.isWhitespace) k := by
  unfold wsPredAux
  cases k with
  | zero => simp
  | succ k => simp

theorem wsGo_eq (cs : Str) : ∀ (i : Nat) (b : Bool),
    wsGo cs i b = ((List.range cs.length).filter (fun k => wsPredAux cs b k)).map (i + ·) := by
  induction cs with
  | nil => intro i b; rfl
  | cons c cs ih =>
    intro i b
    have hm : ((List.range cs.length).map Nat.succ).filter (fun k => wsPredAux (c :: cs) b k)
        = ((List.range cs.length).filter (fun k => wsPredAux cs (!c.isWhitespace) k)).map Nat.succ := by
      rw [List.map_filter]
      congr 1
      apply List.filter_congr
      intro k _
      simp [Function.comp, wsPredAux_succ]
    have hmap : ∀ l : List Nat, (l.map Nat.succ).map (i + ·) = l.map ((i + 1) + ·) := by
      intro l
      rw [List.map_map]
      apply List.map_congr_left
      intro k _
      simp [Function.comp]
      omega
    rw [List.length_cons, List.range_succ_eq_map, List.filter_cons]
    by_cases hws : c.isWhitespace
    · have h0 : wsPredAux (c :: cs) b 0 = false := by simp [wsPredAux, hws]
      simp only [wsGo, hws, if_true, h0, Bool.false_eq_true, if_false]
      rw [ih (i + 1) false, hm, hmap]
      congr 1
      apply List.filter_congr
      intro k _
      simp [hws]
    · cases b with
      | true =>
        have h0 : wsPredAux (c :: cs) true 0 = false := by simp [wsPredAux, hws]
        simp only [wsGo, hws, Bool.false_eq_true, if_false, if_true, h0]
        rw [ih (i + 1) true, hm, hmap]
        congr 1
        apply List.filter_congr
        intro k _
        simp [hws]
      | false =>
        have h0 : wsPredAux (c :: cs) false 0 = true := by
          simp [wsPredAux, hws]
        simp only [wsGo, hws, Bool.false_eq_true, if_false, h0, if_true]
        rw [ih (i + 1) true, hm]
        simp only [List.map_cons, Nat.add_zero]
        rw [hmap]
        have hb2 : (!c.isWhitespace) = true := by simp [hws]
        rw [hb2]

theorem whitespaceStarts_eq_spec (t : Str) : whitespaceStarts t = wsStartsSpec t := by
  unfold whitespaceStarts wsStartsSpec
  rw [wsGo_eq]
  have h : ∀ k ∈ List.range t.length, wsPredAux t false k = wsIsStart t k := by
    intro k _
    unfold wsPredAux wsIsStart
    cases k <;> simp
  rw [List.filter_congr h]
  simp

theorem wsStartsSpec_pairwise (t : Str) : (wsStartsSpec t).Pairwise (· < ·) :=
  (List.pairwise_lt_range t.length).filter _

theorem wsIsStart_lt_length {t : Str} {x : Nat} (h : wsIsStart t x = true) : x < t.length := by
  by_contra hge
  push_neg at hge
  rw [wsIsStart, List.getD_eq_default _ _ hge] at h
  simp at h

theorem mem_wsStartsSpec {t : Str} {x : Nat} : x ∈ wsStartsSpec t ↔ wsIsStart t x = true := by
  unfold wsStartsSpec
  rw [List.mem_filter, List.mem_range]
  constructor
  · exact fun h => h.2
  · exact fun h => ⟨wsIsStart_lt_length h, h⟩

theorem wsStartsSpec_lt_length {t : Str} {x : Nat} (h : x ∈ wsStartsSpec t) : x < t.length :=
  wsIsStart_lt_length (mem_wsStartsSpec.mp h)

theorem getD_ws_congr {s t : Str} (h : s.map Char.isWhitespace = t.map Char.isWhitespace)
    (k : Nat) : (s.getD k ' ').isWhitespace = (t.getD k ' ').isWhitespace := by
  have hs := List.getD_eq_getElem?_getD s k ' '
  have ht := List.getD_eq_getElem?_getD t k ' '
  have hms : (s.map Char.isWhitespace)[k]? = s[k]?.map Char.isWhitespace := by
    simp
  have hmt : (t.map Char.isWhitespace)[k]? = t[k]?.map Char.isWhitespace := by
    simp
  have hh := congrArg (fun l => l[k]?.getD (' '.isWhitespace)) h
  simp only [hms, hmt] at hh
  rw [hs, ht, ← Option.getD_map Char.isWhitespace ' ' s[k]?,
    ← Option.getD_map Char.isWhitespace ' ' t[k]?]
  exact hh

theorem wsIsStart_congr {s t : Str} (h : s.map Char.isWhitespace = t.map Char.isWhitespace)
    (x : Nat) : wsIsStart s x = wsIsStart t x := by
  unfold wsIsStart
  rw [getD_ws_congr h x, getD_ws_congr h (x - 1)]

theorem wsStartsSpec_congr {s t : Str}
    (h : s.map Char.isWhitespace = t.map Char.isWhitespace) :
    wsStartsSpec s = wsStartsSpec t := by
  have hlen : s.length = t.length := by
    have := congrArg List.length h
    simpa using this
  unfold wsStartsSpec
  rw [hlen]
  exact List.filter_congr (fun k _ => wsIsStart_congr h k)

theorem sorted_lt_ext : ∀ {l₁ l₂ : List Nat}, l₁.Pairwise (· < ·) → l₂.Pairwise (· < ·) →
    (∀ x, x ∈ l₁ ↔ x ∈ l₂) → l₁ = l₂ := by
  intro l₁
  induction l₁ with
  | nil =>
    intro l₂ _ _ h
    cases l₂ with
    | nil => rfl
    | cons y l₂ => exact absurd ((h y).mpr (List.mem_cons_self y l₂)) (by simp)
  | cons x l₁ ih =>
    intro l₂ h₁ h₂ h
    cases l₂ with
    | nil => exact absurd ((h x).mp (List.mem_cons_self x l₁)) (by simp)
    | cons y l₂ =>
      have hxy : x = y := by
        rcases List.mem_cons.mp ((h x).mp (List.mem_cons_self x l₁)) with hx | hx
        · exact hx
        · rcases List.mem_cons.mp ((h y).mpr (List.mem_cons_self y l₂)) with hy | hy
          · exact hy.symm
          · have h1 : y < x := (List.pairwise_cons.mp h₂).1 x hx
            have h2 : x < y := (List.pairwise_cons.mp h₁).1 y hy
            omega
      subst hxy
      have htl : ∀ z, z ∈ l₁ ↔ z ∈ l₂ := by
        intro z
        constructor
        · intro hz
          have hzx : x < z := (List.pairwise_cons.mp h₁).1 z hz
          rcases List.mem_cons.mp ((h z).mp (List.mem_cons_of_mem x hz)) with hz2 | hz2
          · omega
          · exact hz2
        · intro hz
          have hzx : x < z := (List.pairwise_cons.mp h₂).1 z hz
          rcases List.mem_cons.mp ((h z).mpr (List.mem_cons_of_mem x hz)) with hz2 | hz2
          · omega
          · exact hz2
      rw [ih (List.pairwise_cons.mp h₁).2 (List.pairwise_cons.mp h₂).2 htl]

theorem getD_pySlice (t : Str) (a b k : Nat) :
    (pySlice t a b).getD k ' ' = if k < b - a then t.getD (a + k) ' ' else ' ' := by
  unfold pySlice
  rw [List.getD_eq_getElem?_getD, List.getElem?_take]
  split_ifs with h
  · rw [List.getElem?_drop, ← List.getD_eq_getElem?_getD]
  · rfl

theorem wsIsStart_pySlice (t : Str) (a b x : Nat) (ha : a = 0 ∨ wsIsStart t a = true) :
    wsIsStart (pySlice t a b) x = (wsIsStart t (a + x) && decide (a + x < b)) := by
  by_cases hxb : x < b - a
  · have hab : a + x < b := by omega
    cases x with
    | zero =>
      have hg := getD_pySlice t a b 0
      rw [if_pos hxb] at hg
      rcases ha with ha | ha
      · subst ha
        unfold wsIsStart
        rw [hg]
        simp [hab]
      · have hR : (wsIsStart t (a + 0) && decide (a + 0 < b)) = true := by
          simp only [Nat.add_zero]
          simp only [ha, Bool.true_and, decide_eq_true_eq]
          omega
        have ha' := ha
        unfold wsIsStart at ha'
        rw [Bool.and_eq_true] at ha'
        have hL : wsIsStart (pySlice t a b) 0 = true := by
          unfold wsIsStart
          rw [hg]
          simp only [Nat.add_zero]
          simp only [ha'.1, Bool.true_and]
          simp
        rw [hL, hR]
    | succ k =>
      have hg := getD_pySlice t a b (k + 1)
      rw [if_pos hxb] at hg
      have hk : k < b - a := by omega
      have hg2 := getD_pySlice t a b k
      rw [if_pos hk] at hg2
      have e1 : (k + 1) - 1 = k := by omega
      have e2 : (a + (k + 1)) - 1 = a + k := by omega
      unfold wsIsStart
      rw [hg, e1, hg2, e2]
      have e3 : decide (k + 1 = 0) = false := by simp
      have e4 : decide (a + (k + 1) = 0) = false := by simp
      have e5 : decide (a + (k + 1) < b) = true := by simp [hab]
      rw [e3, e4, e5]
      simp
  · have hg := getD_pySlice t a b x
    rw [if_neg hxb] at hg
    have hab : decide (a + x < b) = false := by simp; omega
    unfold wsIsStart
    rw [hg, hab]
    simp

theorem wsStartsSpec_pySlice (t : Str) (a b : Nat) (ha : a = 0 ∨ wsIsStart t a = true) :
    wsStartsSpec (pySlice t a b)
      = ((wsStartsSpec t).filter (fun x => decide (a ≤ x) && decide (x < b))).map (· - a) := by
  apply sorted_lt_ext (wsStartsSpec_pairwise _)
  · rw [List.pairwise_map]
    refine List.Pairwise.imp_of_mem ?_ ((wsStartsSpec_pairwise t).filter _)
    intro x y hx hy hlt
    have hax : a ≤ x := by
      have h2 := (List.mem_filter.mp hx).2
      simp only [Bool.and_eq_true, decide_eq_true_eq] at h2
      exact h2.1
    omega
  · intro x
    constructor
    · intro hx
      have h1 := mem_wsStartsSpec.mp hx
      rw [wsIsStart_pySlice t a b x ha] at h1
      rw [Bool.and_eq_true, decide_eq_true_eq] at h1
      rw [List.mem_map]
      refine ⟨a + x, ?_, by omega⟩
      rw [List.mem_filter]
      refine ⟨mem_wsStartsSpec.mpr h1.1, ?_⟩
      simp only [Bool.and_eq_true, decide_eq_true_eq]
      exact ⟨by omega, h1.2⟩
    · intro hx
      rw [List.mem_map] at hx
      obtain ⟨y, hy, hyx⟩ := hx
      rw [List.mem_filter] at hy
      have hws := mem_wsStartsSpec.mp hy.1
      have hy2 := hy.2
      simp only [Bool.and_eq_true, decide_eq_true_eq] at hy2
      apply mem_wsStartsSpec.mpr
      rw [wsIsStart_pySlice t a b x ha]
      have hay : a + x = y := by omega
      rw [hay]
      simp [hws, hy2.2]

theorem sorted_filter_window (S : List Nat) (hS : S.Pairwise (· < ·)) (k m : Nat)
    (hkm : k + m < S.length) :
    S.filter (fun x => decide (S.getD k 0 ≤ x) && decide (x < S.getD (k + m) 0))
      = (S.drop k).take m := by
  have hmono := List.pairwise_iff_getElem.mp hS
  have hk : k < S.length := by omega
  have hgk : S.getD k 0 = S[k] := List.getD_eq_getElem S 0 hk
  have hgkm : S.getD (k + m) 0 = S[k + m] := List.getD_eq_getElem S 0 hkm
  apply sorted_lt_ext (hS.filter _)
  · exact hS.sublist ((List.take_sublist _ _).trans (List.drop_sublist _ _))
  · intro x
    rw [List.mem_filter]
    simp only [Bool.and_eq_true, decide_eq_true_eq, hgk, hgkm]
    constructor
    · rintro ⟨hmem, hle, hlt⟩
      obtain ⟨j, hj, hjx⟩ := List.mem_iff_getElem.mp hmem
      subst hjx
      have hkj : k ≤ j := by
        by_contra hc
        push_neg at hc
        have hlt2 := hmono j k hj hk hc
        omega
      have hjm : j < k + m := by
        by_contra hc
        push_neg at hc
        rcases Nat.eq_or_lt_of_le hc with hc2 | hc2
        · subst hc2
          omega
        · have hlt2 := hmono (k + m) j hkm hj hc2
          omega
      apply List.mem_iff_getElem.mpr
      refine ⟨j - k, by rw [List.length_take, List.length_drop]; omega, ?_⟩
      rw [List.getElem_take, List.getElem_drop]
      congr 1
      omega
    · intro hmem
      obtain ⟨i, hi, hix⟩ := List.mem_iff_getElem.mp hmem
      simp only [List.length_take, List.length_drop] at hi
      have him : i < m := by omega
      have hikm : k + i < S.length := by omega
      rw [List.getElem_take, List.getElem_drop] at hix
      subst hix
      refine ⟨List.getElem_mem _, ?_, ?_⟩
      · rcases Nat.eq_zero_or_pos i with hz | hz
        · subst hz
          simp
        · have hlt2 := hmono k (k + i) hk hikm (by omega)
          omega
      · have hlt2 := hmono (k + i) (k + m) hikm hkm (by omega)
        omega

theorem sorted_filter_prefix_lt (S : List Nat) (hS : S.Pairwise (· < ·)) (N : Nat)
    (hN : N < S.length) :
    S.filter (fun x => decide (0 ≤ x) && decide (x < S.getD N 0)) = S.take N := by
  have hmono := List.pairwise_iff_getElem.mp hS
  have hgN : S.getD N 0 = S[N] := List.getD_eq_getElem S 0 hN
  apply sorted_lt_ext (hS.filter _) (hS.sublist (List.take_sublist _ _))
  intro x
  rw [List.mem_filter]
  simp only [Bool.and_eq_true, decide_eq_true_eq, hgN]
  constructor
  · rintro ⟨hmem, _, hlt⟩
    obtain ⟨j, hj, hjx⟩ := List.mem_iff_getElem.mp hmem
    subst hjx
    have hjN : j < N := by
      by_contra hc
      push_neg at hc
      rcases Nat.eq_or_lt_of_le hc with hc2 | hc2
      · subst hc2
        omega
      · have hlt2 := hmono N j hN hj hc2
        omega
    apply List.mem_iff_getElem.mpr
    refine ⟨j, by rw [List.length_take]; omega, ?_⟩
    rw [List.getElem_take]
  · intro hmem
    obtain ⟨i, hi, hix⟩ := List.mem_iff_getElem.mp hmem
    simp only [List.length_take] at hi
    have hiN : i < N := by omega
    have hiS : i < S.length := by omega
    rw [List.getElem_take] at hix
    subst hix
    refine ⟨List.getElem_mem _, by omega, ?_⟩
    have hlt2 := hmono i N hiS hN hiN
    omega

theorem sorted_filter_tail_ge (S : List Nat) (hS : S.Pairwise (· < ·)) (k : Nat)
    (hk : k < S.length) (b : Nat) (hb : ∀ x ∈ S, x < b) :
    S.filter (fun x => decide (S.getD k 0 ≤ x) && decide (x < b)) = S.drop k := by
  have hmono := List.pairwise_iff_getElem.mp hS
  have hgk : S.getD k 0 = S[k] := List.getD_eq_getElem S 0 hk
  apply sorted_lt_ext (hS.filter _) (hS.sublist (List.drop_sublist _ _))
  intro x
  rw [List.mem_filter]
  simp only [Bool.and_eq_true, decide_eq_true_eq, hgk]
  constructor
  · rintro ⟨hmem, hle, _⟩
    obtain ⟨j, hj, hjx⟩ := List.mem_iff_getElem.mp hmem
    subst hjx
    have hkj : k ≤ j := by
      by_contra hc
      push_neg at hc
      have hlt2 := hmono j k hj hk hc
      omega
    apply List.mem_iff_getElem.mpr
    refine ⟨j - k, by rw [List.length_drop]; omega, ?_⟩
    rw [List.getElem_drop]
    congr 1
    omega
  · intro hmem
    obtain ⟨i, hi, hix⟩ := List.mem_iff_getElem.mp hmem
    simp only [List.length_drop] at hi
    have hikm : k + i < S.length := by omega
    rw [List.getElem_drop] at hix
    subst hix
    refine ⟨List.getElem_mem _, ?_, hb _ (List.getElem_mem _)⟩
    rcases Nat.eq_zero_or_pos i with hz | hz
    · subst hz
      simp
    · have hlt2 := hmono k (k + i) hk hikm (by omega)
      omega

/- ----------------------------------------------------------------------
Lemmas: tokenizer-level bridges.
---------------------------------------------------------------------- -/

theorem tokenizeWithOffsets_text_eq (u : UnicodeOps) (ex : ExtToks)
    (cfg : TokenizationConfig) (text : Str) :
    (tokenizeWithOffsets u ex cfg text).text = normalizeLengthPreserving u cfg text := by
  unfold tokenizeWithOffsets
  by_cases hest : cfg.estimate_only
  · simp [hest]
  · by_cases hws : effStrategy cfg = "whitespace"
    · simp [hest, hws, tokenizeWhitespace]
    · by_cases hhf : effStrategy cfg = "huggingface"
      · simp [hest, hws, hhf, tokenizeHF]
      · simp [hest, hws, hhf, tokenizeTiktoken]

theorem tokenizeWithOffsets_text_length (u : UnicodeOps) (ex : ExtToks)
    (cfg : TokenizationConfig) (text : Str) :
    (tokenizeWithOffsets u ex cfg text).text.length = text.length := by
  rw [tokenizeWithOffsets_text_eq]
  exact normalizeLengthPreserving_length u cfg text

theorem tokenizeWithOffsets_starts_ws (u : UnicodeOps) (ex : ExtToks)
    (cfg : TokenizationConfig) (text : Str) (hest : cfg.estimate_only = false)
    (hstrat : effStrategy cfg = "whitespace") :
    (tokenizeWithOffsets u ex cfg text).token_starts
      = whitespaceStarts (normalizeLengthPreserving u cfg text) := by
  unfold tokenizeWithOffsets
  simp [hest, hstrat, tokenizeWhitespace]

theorem tokenizeWithOffsets_starts_ws_spec (u : UnicodeOps) (ex : ExtToks)
    (cfg : TokenizationConfig) (text : Str) (hest : cfg.estimate_only = false)
    (hstrat : effStrategy cfg = "whitespace")
    (hn : SpacePreservingLP u.nfkc) (hl : SpacePreservingLP u.lower) :
    (tokenizeWithOffsets u ex cfg text).token_starts = wsStartsSpec text := by
  rw [tokenizeWithOffsets_starts_ws u ex cfg text hest hstrat, whitespaceStarts_eq_spec]
  exact wsStartsSpec_congr (normalizeLengthPreserving_map_ws u cfg hn hl text)

theorem tokenizeWithOffsets_starts_est (u : UnicodeOps) (ex : ExtToks)
    (cfg : TokenizationConfig) (text : Str) (hest : cfg.estimate_only = true) :
    (tokenizeWithOffsets u ex cfg text).token_starts
      = List.range' 0 ((text.length + 3) / 4) 4 := by
  unfold tokenizeWithOffsets
  simp [hest, normalizeLengthPreserving_length]

theorem countTokens_eq_starts_length (u : UnicodeOps) (ex : ExtToks)
    (cfg : TokenizationConfig) (text : Str) :
    countTokens u ex cfg text = (tokenizeWithOffsets u ex cfg text).token_starts.length := by
  unfold countTokens
  by_cases hest : cfg.estimate_only
  · rw [if_pos hest, tokenizeWithOffsets_starts_est u ex cfg text hest]
    rw [List.length_range']
    unfold estimateTokenCount
    rw [tokNormalize_length]
  · rw [if_neg hest]

theorem countTokens_ws_spec (u : UnicodeOps) (ex : ExtToks)
    (cfg : TokenizationConfig) (text : Str) (hest : cfg.estimate_only = false)
    (hstrat : effStrategy cfg = "whitespace")
    (hn : SpacePreservingLP u.nfkc) (hl : SpacePreservingLP u.lower) :
    countTokens u ex cfg text = (wsStartsSpec text).length := by
  rw [countTokens_eq_starts_length,
    tokenizeWithOffsets_starts_ws_spec u ex cfg text hest hstrat hn hl]

theorem countTokens_est (u : UnicodeOps) (ex : ExtToks)
    (cfg : TokenizationConfig) (text : Str) (hest : cfg.estimate_only = true) :
    countTokens u ex cfg text = (text.length + 3) / 4 := by
  rw [countTokens_eq_starts_length, tokenizeWithOffsets_starts_est u ex cfg text hest,
    List.length_range']

theorem segStarts_le_total (ps : List Str) (acc : Nat) :
    ∀ x ∈ segStarts ps acc, x ≤ acc + (ps.flatten).length := by
  induction ps generalizing acc with
  | nil => intro x hx; simp [segStarts] at hx
  | cons p ps ih =>
    intro x hx
    rw [segStarts] at hx
    rcases List.mem_cons.mp hx with hx | hx
    · omega
    · have := ih (acc + p.length) x hx
      simp only [List.flatten_cons, List.length_append]
      omega

theorem segStarts_chain (ps : List Str) (acc : Nat) :
    List.Chain' (· ≤ ·) (segStarts ps acc) := by
  induction ps generalizing acc with
  | nil => simp [segStarts]
  | cons p ps ih =>
    rw [segStarts]
    rw [List.chain'_cons']
    refine ⟨?_, ih (acc + p.length)⟩
    intro b hb
    cases ps with
    | nil => simp [segStarts] at hb
    | cons q ps =>
      rw [segStarts] at hb
      simp at hb
      omega

theorem tokenizeWithOffsets_starts_hf (u : UnicodeOps) (ex : ExtToks)
    (cfg : TokenizationConfig) (text : Str) (hest : cfg.estimate_only = false)
    (hhf : effStrategy cfg = "huggingface") :
    (tokenizeWithOffsets u ex cfg text).token_starts
      = ((ex.hfTok (orElseStr cfg.hf_tokenizer_name "gpt2")).offsets
          (normalizeLengthPreserving u cfg text)).map Prod.fst := by
  unfold tokenizeWithOffsets
  simp [hest, hhf, tokenizeHF]

theorem tokenizeWithOffsets_starts_tk (u : UnicodeOps) (ex : ExtToks)
    (cfg : TokenizationConfig) (text : Str) (hest : cfg.estimate_only = false)
    (hws : effStrategy cfg ≠ "whitespace") (hhf : effStrategy cfg ≠ "huggingface") :
    (tokenizeWithOffsets u ex cfg text).token_starts
      = segStarts ((ex.tiktokenEnc (orElseStr cfg.tiktoken_encoding "o200k_base")).pieces
          (normalizeLengthPreserving u cfg text)) 0 := by
  unfold tokenizeWithOffsets
  simp [hest, hws, hhf, tokenizeTiktoken]

/-- C3: for every input text and every tokenization strategy (whitespace,
tiktoken, huggingface, estimate_only), the `TokenizationResult` returned by
`tokenize_with_offsets` has every `token_starts` value a valid index into the
returned text (`0 ≤ v ≤ len(result.text)`) and the `token_starts` sequence is
non-decreasing. -/
theorem claim_C3 (u : UnicodeOps) (ex : ExtToks) (cfg : TokenizationConfig) (text : Str) :
    List.Chain' (· ≤ ·) (tokenizeWithOffsets u ex cfg text).token_starts ∧
    (∀ x ∈ (tokenizeWithOffsets u ex cfg text).token_starts,
      x ≤ (tokenizeWithOffsets u ex cfg text).text.length) := by
  rw [tokenizeWithOffsets_text_eq]
  have hL := normalizeLengthPreserving_length u cfg text
  by_cases hest : cfg.estimate_only
  · rw [tokenizeWithOffsets_starts_est u ex cfg text hest]
    constructor
    · exact ((List.pairwise_lt_range' _ _ 4 (by omega)).chain').imp (fun _ _ h => le_of_lt h)
    · intro x hx
      rw [List.mem_range'] at hx
      obtain ⟨i, hi, hx⟩ := hx
      omega
  · have hest' : cfg.estimate_only = false := by simp at hest; exact hest
    by_cases hws : effStrategy cfg = "whitespace"
    · rw [tokenizeWithOffsets_starts_ws u ex cfg text hest' hws, whitespaceStarts_eq_spec]
      constructor
      · exact ((wsStartsSpec_pairwise _).chain').imp (fun _ _ h => le_of_lt h)
      · intro x hx
        have := wsStartsSpec_lt_length hx
        omega
    · by_cases hhf : effStrategy cfg = "huggingface"
      · rw [tokenizeWithOffsets_starts_hf u ex cfg text hest' hhf]
        constructor
        · exact ((ex.hfTok (orElseStr cfg.hf_tokenizer_name "gpt2")).starts_mono _).imp
            (fun _ _ h => le_of_lt h)
        · intro x hx
          rw [List.mem_map] at hx
          obtain ⟨p, hp, hpx⟩ := hx
          have h2 := ((ex.hfTok (orElseStr cfg.hf_tokenizer_name "gpt2")).starts_lt _ p hp)
          omega
      · rw [tokenizeWithOffsets_starts_tk u ex cfg text hest' hws hhf]
        constructor
        · exact segStarts_chain _ 0
        · intro x hx
          have h1 := segStarts_le_total _ 0 x hx
          rw [(ex.tiktokenEnc (orElseStr cfg.tiktoken_encoding "o200k_base")).join_eq] at h1
          omega

/-- C4: during offset-producing tokenization, normalization (NFKC and
lowercasing) is applied only when it preserves string length: the returned
text always has the input's length, and in particular both "ﬁ" (U+FB01) and
"İ" (U+0130) tokenize to a result text of length 1. -/
theorem claim_C4 :
    (∀ (u : UnicodeOps) (ex : ExtToks) (cfg : TokenizationConfig) (text : Str),
        (tokenizeWithOffsets u ex cfg text).text.length = text.length) ∧
    (tokenizeWithOffsets pyUnicode trivExt
      ⟨"whitespace", true, true, false, "o200k_base", "gpt2", 512⟩ "ﬁ".data).text.length = 1 ∧
    (tokenizeWithOffsets pyUnicode trivExt
      ⟨"whitespace", true, true, false, "o200k_base", "gpt2", 512⟩ "İ".data).text.length = 1 := by
  refine ⟨tokenizeWithOffsets_text_length, ?_, ?_⟩ <;>
    · rw [tokenizeWithOffsets_text_eq]
      decide

/- ----------------------------------------------------------------------
Claims C8 (ChunkMatch validation) and C9 (config PATCH endpoint).
---------------------------------------------------------------------- -/

/-- C8: a ChunkMatch always has source equal to exactly one of vector,
sparse, or graph; constructing a ChunkMatch with source="neighbor" fails
validation (the unit test's exact construction is rejected). -/
theorem claim_C8 :
    (∀ (cid ct fp : String) (sl el : Int) (lang : Option String) (sc : Rat)
        (src : String) (corp nb : Option String) (cm : ChunkMatch),
        mkChunkMatch cid ct fp sl el lang sc src corp nb = .ok cm →
        cm.source = "vector" ∨ cm.source = "sparse" ∨ cm.source = "graph") ∧
    mkChunkMatch "c1" "hello" "doc.txt" 1 1 none 0 "neighbor" (some "test") (some "seed")
      = .error "validation error: source must be one of vector, sparse, graph; got neighbor" := by
  constructor
  · intro cid ct fp sl el lang sc src corp nb cm h
    unfold mkChunkMatch at h
    split_ifs at h with hsrc
    · have hcm : cm.source = src := by
        cases h
        rfl
      rw [hcm]
      exact hsrc
  · rfl

/-- Closed instance of the C8 validation: a successfully constructed match
carries one of the three allowed sources. -/
theorem claim_C8_witness :
    ({ chunk_id := "c2", content := "x", file_path := "f.py", start_line := 1,
       end_line := 2, language := none, score := 0, source := "vector",
       metadata_corpus_id := none, metadata_neighbor_of := none } : ChunkMatch).source
        = "vector" ∨
    ({ chunk_id := "c2", content := "x", file_path := "f.py", start_line := 1,
       end_line := 2, language := none, score := 0, source := "vector",
       metadata_corpus_id := none, metadata_neighbor_of := none } : ChunkMatch).source
        = "sparse" ∨
    ({ chunk_id := "c2", content := "x", file_path := "f.py", start_line := 1,
       end_line := 2, language := none, score := 0, source := "vector",
       metadata_corpus_id := none, metadata_neighbor_of := none } : ChunkMatch).source
        = "graph" :=
  claim_C8.1 "c2" "x" "f.py" 1 2 none 0 "vector" none none _ rfl

/-- C9: the `PATCH /api/config/{section}` handler unconditionally raises
`NotImplementedError` instead of deep-merging the updates; no patch is ever
applied, contradicting the spec and the repository's own endpoint tests. -/
theorem claim_C9 : ∀ (sectionName : String) (updates : List (String × String)),
    updateConfigSection sectionName updates = .error "NotImplementedError" :=
  fun _ _ => rfl

/- ----------------------------------------------------------------------
Claim C2: provider routing.
---------------------------------------------------------------------- -/

theorem provLe_refl (a : LocalProviderEntry) : provLe a a := Or.inr ⟨rfl, le_refl _⟩

instance : IsTotal LocalProviderEntry provLe := ⟨by
  intro a b
  unfold provLe
  rcases lt_trichotomy a.priority b.priority with h | h | h
  · exact Or.inl (Or.inl h)
  · rcases le_total a.name b.name with h2 | h2
    · exact Or.inl (Or.inr ⟨h, h2⟩)
    · exact Or.inr (Or.inr ⟨h.symm, h2⟩)
  · exact Or.inr (Or.inl h)⟩

instance : IsTrans LocalProviderEntry provLe := ⟨by
  intro a b c hab hbc
  unfold provLe at *
  rcases hab with h1 | h1 <;> rcases hbc with h2 | h2
  · exact Or.inl (lt_trans h1 h2)
  · exact Or.inl (h2.1 ▸ h1)
  · exact Or.inl (h1.1 ▸ h2)
  · exact Or.inr ⟨h1.1.trans h2.1, le_trans h1.2 h2.2⟩⟩

theorem chosen_spec (l : List LocalProviderEntry) (hne : l ≠ []) :
    (pySortProviders l).headD dummyProvider ∈ l ∧
    ∀ q ∈ l, provLe ((pySortProviders l).headD dummyProvider) q := by
  have hperm : List.Perm (pySortProviders l) l := List.perm_insertionSort provLe l
  have hsorted : List.Sorted provLe (pySortProviders l) := List.sorted_insertionSort provLe l
  cases hs : pySortProviders l with
  | nil =>
    have hl : l = [] := by
      have hlen := hperm.length_eq
      rw [hs] at hlen
      exact List.length_eq_zero.mp hlen.symm
    exact absurd hl hne
  | cons p rest =>
    rw [hs] at hperm hsorted
    constructor
    · simp only [List.headD_cons]
      exact hperm.mem_iff.mp (List.mem_cons_self p rest)
    · intro q hq
      simp only [List.headD_cons]
      rcases List.mem_cons.mp (hperm.mem_iff.mpr hq) with h | h
      · rw [h]
        exact provLe_refl p
      · exact (List.sorted_cons.mp hsorted).1 q h

/-- Counterexample to C2 as stated: with OpenRouter enabled and the API key
set, a `local:`-prefixed override still forces the local provider, so the
route is not `openrouter`. -/
theorem claim_C2_cx :
    (let cfg : ChatConfig :=
      ⟨⟨true, "oru", "orm", ""⟩, ⟨[⟨"A", "custom", "http://a", true, 0⟩], "ldm"⟩⟩
     cfg.openrouter.enabled = true ∧ pyStrTrim "k" ≠ "" ∧
       selectProviderRoute cfg "local:m" "k"
         = ⟨"local", "A", "http://a", "m", none⟩) :=
  ⟨rfl, by decide, by decide⟩

/-- C2 (amended): for un-prefixed overrides `select_provider_route` branches
on whether the model part contains a `/`.  Without one it follows the default
preference order: OpenRouter when enabled with a key, else the enabled local
provider minimal by `(priority, name)` (ties broken lexicographically by
name) with a null api key, else the cloud_direct placeholder.  With one it
forces the OpenRouter branch — the openrouter route when OpenRouter is
enabled with a key, else the cloud_direct placeholder — with no matching
against provider names. -/
theorem claim_C2_amended (cfg : ChatConfig) (override envKey : String)
    (hparse : (overrideParse (pyStrTrim override)).1 = "") :
    (strContains (overrideParse (pyStrTrim override)).2 '/' = false →
      (cfg.openrouter.enabled = true → pyStrTrim envKey ≠ "" →
        selectProviderRoute cfg override envKey =
          ⟨"openrouter", "OpenRouter", cfg.openrouter.base_url,
            orElseStr (overrideParse (pyStrTrim override)).2 cfg.openrouter.default_model,
            some (pyStrTrim envKey)⟩) ∧
      ((cfg.openrouter.enabled = false ∨ pyStrTrim envKey = "") →
        cfg.local_models.providers.filter (·.enabled) ≠ [] →
        ∃ p, p ∈ cfg.local_models.providers ∧ p.enabled = true ∧
          selectProviderRoute cfg override envKey =
            ⟨"local", p.name, p.base_url,
              orElseStr (overrideParse (pyStrTrim override)).2
                cfg.local_models.default_chat_model, none⟩ ∧
          (∀ q ∈ cfg.local_models.providers, q.enabled = true →
            p.priority < q.priority ∨ (p.priority = q.priority ∧ p.name ≤ q.name))) ∧
      ((cfg.openrouter.enabled = false ∨ pyStrTrim envKey = "") →
        cfg.local_models.providers.filter (·.enabled) = [] →
        (selectProviderRoute cfg override envKey).kind = "cloud_direct" ∧
        (selectProviderRoute cfg override envKey).api_key = none)) ∧
    (strContains (overrideParse (pyStrTrim override)).2 '/' = true →
      (cfg.openrouter.enabled = true → pyStrTrim envKey ≠ "" →
        selectProviderRoute cfg override envKey =
          ⟨"openrouter", "OpenRouter", cfg.openrouter.base_url,
            orElseStr (overrideParse (pyStrTrim override)).2 cfg.openrouter.default_model,
            some (pyStrTrim envKey)⟩) ∧
      ((cfg.openrouter.enabled = false ∨ pyStrTrim envKey = "") →
        selectProviderRoute cfg override envKey =
          ⟨"cloud_direct", "Cloud", "",
            orElseStr (overrideParse (pyStrTrim override)).2 cfg.openrouter.default_model,
            none⟩)) := by
  constructor
  · intro hslash
    refine ⟨?_, ?_, ?_⟩
    · intro hen hkey
      simp only [selectProviderRoute]
      rw [hparse, hslash]
      simp [hen, hkey]
    · intro hnot hne
      obtain ⟨hmem, hmin⟩ := chosen_spec (cfg.local_models.providers.filter (·.enabled)) hne
      have hie : (cfg.local_models.providers.filter (·.enabled)).isEmpty = false := by
        rw [Bool.eq_false_iff]
        intro h
        exact hne (List.isEmpty_iff.mp h)
      refine ⟨(pySortProviders (cfg.local_models.providers.filter (·.enabled))).headD
        dummyProvider, ?_, ?_, ?_, ?_⟩
      · exact (List.mem_filter.mp hmem).1
      · have h2 := (List.mem_filter.mp hmem).2
        simpa using h2
      · simp only [selectProviderRoute]
        rw [hparse, hslash]
        simp [hie]
        intro h
        rcases hnot with h2 | h2
        · rw [h2] at h
          exact absurd h (by decide)
        · exact h2
      · intro q hq hqen
        have hqf : q ∈ cfg.local_models.providers.filter (·.enabled) :=
          List.mem_filter.mpr ⟨hq, by simp [hqen]⟩
        have h2 := hmin q hqf
        unfold provLe at h2
        exact h2
    · intro hnot hfil
      have hnr : ¬(cfg.openrouter.enabled = true ∧ ¬pyStrTrim envKey = "") := by
        rcases hnot with h | h <;> simp [h]
      constructor <;>
        · simp only [selectProviderRoute]
          rw [hparse, hslash]
          simp [hnr, hfil]
  · intro hslash
    constructor
    · intro hen hkey
      simp only [selectProviderRoute]
      rw [hparse, hslash]
      simp [hen, hkey]
    · intro hnot
      have hnr : ¬(cfg.openrouter.enabled = true ∧ ¬pyStrTrim envKey = "") := by
        rcases hnot with h | h <;> simp [h]
      simp only [selectProviderRoute]
      rw [hparse, hslash]
      simp [hnr]

/-- Closed instance of the amended C2 routing: with no key, an empty override
and two enabled local providers at equal priority, the route is the local
provider minimal by name; and a '/'-override forces the openrouter route
when ready, even with an enabled local provider whose name matches the part
before the slash. -/
theorem claim_C2_witness :
    (∃ p, p ∈ ([⟨"B", "custom", "http://b", true, 0⟩, ⟨"A", "custom", "http://a", true, 0⟩]
        : List LocalProviderEntry) ∧ p.enabled = true ∧
      selectProviderRoute ⟨⟨true, "oru", "orm", ""⟩,
          ⟨[⟨"B", "custom", "http://b", true, 0⟩, ⟨"A", "custom", "http://a", true, 0⟩], "ldm"⟩⟩
          "" ""
        = ⟨"local", p.name, p.base_url, orElseStr (overrideParse (pyStrTrim "")).2 "ldm", none⟩ ∧
      (∀ q ∈ ([⟨"B", "custom", "http://b", true, 0⟩, ⟨"A", "custom", "http://a", true, 0⟩]
          : List LocalProviderEntry), q.enabled = true →
        p.priority < q.priority ∨ (p.priority = q.priority ∧ p.name ≤ q.name))) ∧
    selectProviderRoute ⟨⟨true, "oru", "orm", ""⟩,
        ⟨[⟨"a", "custom", "http://a", true, 0⟩], "ldm"⟩⟩ "a/m" "k"
      = ⟨"openrouter", "OpenRouter", "oru",
          orElseStr (overrideParse (pyStrTrim "a/m")).2 "orm", some (pyStrTrim "k")⟩ :=
  ⟨((claim_C2_amended
      ⟨⟨true, "oru", "orm", ""⟩,
        ⟨[⟨"B", "custom", "http://b", true, 0⟩, ⟨"A", "custom", "http://a", true, 0⟩], "ldm"⟩⟩
      "" "" (by decide)).1 (by decide)).2.1 (Or.inr (by decide)) (by decide),
   ((claim_C2_amended
      ⟨⟨true, "oru", "orm", ""⟩, ⟨[⟨"a", "custom", "http://a", true, 0⟩], "ldm"⟩⟩
      "a/m" "k" (by decide)).2 (by decide)).1 rfl (by decide)⟩

/- ----------------------------------------------------------------------
Claim C10: cloud_direct routes always fail before any network call.
---------------------------------------------------------------------- -/

theorem selectProviderRoute_cloud_direct (cfg : ChatConfig) (envKey : String)
    (hnot : cfg.openrouter.enabled = false ∨ pyStrTrim envKey = "")
    (hfil : cfg.local_models.providers.filter (·.enabled) = []) :
    (selectProviderRoute cfg "" envKey).kind = "cloud_direct" := by
  have hnr : ¬(cfg.openrouter.enabled = true ∧ ¬pyStrTrim envKey = "") := by
    rcases hnot with h | h <;> simp [h]
  have hov : overrideParse (pyStrTrim "") = ("", "") := by decide
  have hsl : strContains "" '/' = false := by decide
  simp only [selectProviderRoute]
  rw [hov]
  simp [hsl, hnr, hfil]

/-- C10: for every route of kind cloud_direct, both `generate_chat_text` and
`stream_chat_text` fail with "No cloud_direct provider configured" regardless
of the network oracle (i.e. before any network call); and when OpenRouter is
unusable (disabled or key blank) and no enabled local provider exists, the
router yields such a route, so chat generation always fails there. -/
theorem claim_C10 :
    (∀ (net : HttpRequest → Except String String) (route : ProviderRoute)
        (ocfg : OpenRouterConfig) (sp um : String) (imgs : List ImageAttachment)
        (temp : Rat) (mt : Int) (ctx : Option String) (chunks : List ChunkMatch),
        route.kind = "cloud_direct" →
        generateChatText net route ocfg sp um imgs temp mt ctx chunks
          = .error "No cloud_direct provider configured") ∧
    (∀ (net : HttpRequest → Except String (List String)) (pd : String → Option String)
        (route : ProviderRoute) (ocfg : OpenRouterConfig) (sp um : String)
        (imgs : List ImageAttachment) (temp : Rat) (mt : Int) (ctx : Option String)
        (chunks : List ChunkMatch),
        route.kind = "cloud_direct" →
        streamChatText net pd route ocfg sp um imgs temp mt ctx chunks
          = .error "No cloud_direct provider configured") ∧
    (∀ (cfg : ChatConfig) (envKey : String),
        (cfg.openrouter.enabled = false ∨ pyStrTrim envKey = "") →
        cfg.local_models.providers.filter (·.enabled) = [] →
        (selectProviderRoute cfg "" envKey).kind = "cloud_direct" ∧
        ∀ (net : HttpRequest → Except String String) (ocfg : OpenRouterConfig)
          (sp um : String) (imgs : List ImageAttachment) (temp : Rat) (mt : Int)
          (ctx : Option String) (chunks : List ChunkMatch),
          generateChatText net (selectProviderRoute cfg "" envKey) ocfg sp um imgs
              temp mt ctx chunks
            = .error "No cloud_direct provider configured") := by
  have hgen : ∀ (net : HttpRequest → Except String String) (route : ProviderRoute)
      (ocfg : OpenRouterConfig) (sp um : String) (imgs : List ImageAttachment)
      (temp : Rat) (mt : Int) (ctx : Option String) (chunks : List ChunkMatch),
      route.kind = "cloud_direct" →
      generateChatText net route ocfg sp um imgs temp mt ctx chunks
        = .error "No cloud_direct provider configured" := by
    intro net route ocfg sp um imgs temp mt ctx chunks h
    simp [generateChatText, chatRequestOf, h]
  refine ⟨hgen, ?_, ?_⟩
  · intro net pd route ocfg sp um imgs temp mt ctx chunks h
    simp [streamChatText, chatRequestOf, h]
  · intro cfg envKey hnot hfil
    have hk := selectProviderRoute_cloud_direct cfg envKey hnot hfil
    exact ⟨hk, fun net ocfg sp um imgs temp mt ctx chunks =>
      hgen net _ ocfg sp um imgs temp mt ctx chunks hk⟩

/-- Closed instance of C10: a concrete cloud_direct route makes
`generate_chat_text` fail even under an always-succeeding network oracle, and
a config with OpenRouter disabled and no local providers routes to
cloud_direct. -/
theorem claim_C10_witness :
    generateChatText (fun _ => .ok "x") ⟨"cloud_direct", "Cloud", "", "m", none⟩
        ⟨false, "", "", ""⟩ "s" "u" [] 0 10 none []
      = .error "No cloud_direct provider configured" ∧
    (selectProviderRoute ⟨⟨false, "", "orm", ""⟩, ⟨[], "ldm"⟩⟩ "" "").kind
      = "cloud_direct" :=
  ⟨claim_C10.1 (fun _ => .ok "x") ⟨"cloud_direct", "Cloud", "", "m", none⟩
      ⟨false, "", "", ""⟩ "s" "u" [] 0 10 none [] rfl,
    (claim_C10.2.2 ⟨⟨false, "", "orm", ""⟩, ⟨[], "ldm"⟩⟩ "" (Or.inl rfl) rfl).1⟩

/- ----------------------------------------------------------------------
Claim C7: chat prompt assembly.
---------------------------------------------------------------------- -/

theorem intercalate_go_length (s : String) (l : List String) :
    ∀ acc : String, acc.length ≤ (String.intercalate.go acc s l).length := by
  induction l with
  | nil => intro acc; exact le_refl _
  | cons a as ih =>
    intro acc
    show acc.length ≤ (String.intercalate.go (acc ++ s ++ a) s as).length
    refine le_trans ?_ (ih (acc ++ s ++ a))
    rw [String.length_append, String.length_append]
    omega

theorem renderChunk_length_pos (ch : ChunkMatch) : 0 < (renderChunkForContext ch).length := by
  have h5 : ("\n```\n" : String).length = 5 := rfl
  simp only [renderChunkForContext, String.length_append, h5]
  omega

theorem formatChunksForContext_ne_empty (chunks : List ChunkMatch) :
    formatChunksForContext chunks ≠ "" := by
  cases chunks with
  | nil => decide
  | cons c rest =>
    intro h
    have h0 : (formatChunksForContext (c :: rest)).length = 0 := by rw [h]; rfl
    have h1 : formatChunksForContext (c :: rest)
        = String.intercalate.go (renderChunkForContext c) "\n\n"
            (rest.map renderChunkForContext) := rfl
    have h2 := intercalate_go_length "\n\n" (rest.map renderChunkForContext)
      (renderChunkForContext c)
    have h3 := renderChunk_length_pos c
    rw [h1] at h0
    omega

/-- Counterexample to C7 as stated: with zero context chunks (and no explicit
context_text) the system prompt is still extended, with the placeholder
"No relevant context found."; and an explicit context_text is stripped, not
used verbatim. -/
theorem claim_C7_cx :
    ([] : List ChunkMatch).isEmpty = true ∧
    chatPrompt "SYS" none [] = "SYS\n\n## Context\nNo relevant context found." ∧
    chatPrompt "SYS" (some " X ") [] = "SYS\n\n## Context\nX" :=
  ⟨rfl, by decide, by decide⟩

/-- C7 (amended): in the no-context_text path the system prompt is always
extended with "## Context\n" followed by the rendered block — the rendered
chunks when chunks exist, the placeholder "No relevant context found." when
none do; each chunk renders as the header "## <file_path>:<start>-<end>
(<language>)" followed by a fenced content block; an explicit context_text is
stripped and, when non-blank after stripping, its stripped form replaces the
rendered chunks. -/
theorem claim_C7_amended (sp ct : String) (ch : ChunkMatch) (chunks : List ChunkMatch) :
    (chatPrompt sp none chunks
        = sp ++ "\n\n## Context\n" ++ formatChunksForContext chunks) ∧
    (chunks = [] → formatChunksForContext chunks = "No relevant context found.") ∧
    formatChunksForContext [ch] = renderChunkForContext ch ∧
    (∀ l : String, ch.language = some l → l ≠ "" →
      renderChunkForContext ch
        = "## " ++ ch.file_path ++ ":" ++ toString ch.start_line ++ "-"
            ++ toString ch.end_line ++ " (" ++ l ++ ")" ++ "\n```\n" ++ ch.content ++ "\n```") ∧
    (pyStrTrim ct ≠ "" →
      chatPrompt sp (some ct) chunks = sp ++ "\n\n## Context\n" ++ pyStrTrim ct) := by
  refine ⟨?_, ?_, rfl, ?_, ?_⟩
  · simp only [chatPrompt, chatContextBlock]
    rw [if_neg (formatChunksForContext_ne_empty chunks)]
  · intro h
    subst h
    rfl
  · intro l hl hne
    simp only [renderChunkForContext, hl]
    rw [if_neg hne]
  · intro h
    simp only [chatPrompt, chatContextBlock]
    rw [if_neg h]

/-- Closed instance of the amended C7: a concrete chunk renders with its
header and fence, and a concrete stripped context_text extends the prompt. -/
theorem claim_C7_witness :
    renderChunkForContext ⟨"c", "body", "f.py", 1, 2, some "py", 0, "vector", none, none⟩
      = "## " ++ "f.py" ++ ":" ++ toString (1 : Int) ++ "-" ++ toString (2 : Int)
        ++ " (" ++ "py" ++ ")" ++ "\n```\n" ++ "body" ++ "\n```" ∧
    chatPrompt "S" (some " CTX ") [] = "S" ++ "\n\n## Context\n" ++ pyStrTrim " CTX " :=
  ⟨(claim_C7_amended "S" " CTX "
      ⟨"c", "body", "f.py", 1, 2, some "py", 0, "vector", none, none⟩ []).2.2.2.1
      "py" rfl (by decide),
   (claim_C7_amended "S" " CTX "
      ⟨"c", "body", "f.py", 1, 2, some "py", 0, "vector", none, none⟩ []).2.2.2.2
      (by decide)⟩

/- ----------------------------------------------------------------------
Claim C5: truncate_by_tokens / truncate_end.
---------------------------------------------------------------------- -/

theorem whitespaceStarts_take_at (t : Str) (mt : Nat)
    (hmt : mt < (whitespaceStarts t).length) :
    whitespaceStarts (t.take ((whitespaceStarts t).getD mt 0))
      = (whitespaceStarts t).take mt := by
  rw [whitespaceStarts_eq_spec] at hmt
  simp only [whitespaceStarts_eq_spec]
  have hsl : List.take ((wsStartsSpec t).getD mt 0) t
      = pySlice t 0 ((wsStartsSpec t).getD mt 0) := by
    simp [pySlice]
  rw [hsl, wsStartsSpec_pySlice t 0 _ (Or.inl rfl),
    sorted_filter_prefix_lt (wsStartsSpec t) (wsStartsSpec_pairwise t) mt hmt]
  simp

theorem truncateByTokens_ws_noop (u : UnicodeOps) (ex : ExtToks) (cfg : TokenizationConfig)
    (text : Str) (N : Int) (mode : String) (hN : 0 < N)
    (hest : cfg.estimate_only = false) (hstrat : effStrategy cfg = "whitespace")
    (hle : ((whitespaceStarts (tokNormalize u cfg text)).length : Int) ≤ N) :
    truncateByTokens u ex cfg text N mode = .ok (tokNormalize u cfg text) := by
  have hN0 : ¬ (N ≤ 0) := by omega
  simp [truncateByTokens, hN0, hest, hstrat, tokenizeWhitespace, hle]

theorem truncateByTokens_ws_end (u : UnicodeOps) (ex : ExtToks) (cfg : TokenizationConfig)
    (text : Str) (N : Int) (hN : 0 < N)
    (hest : cfg.estimate_only = false) (hstrat : effStrategy cfg = "whitespace")
    (hgt : N < ((whitespaceStarts (tokNormalize u cfg text)).length : Int)) :
    truncateByTokens u ex cfg text N "truncate_end"
      = .ok ((tokNormalize u cfg text).take
          ((whitespaceStarts (tokNormalize u cfg text)).getD N.toNat 0)) := by
  have hN0 : ¬ (N ≤ 0) := by omega
  have hm : pyStrLower (pyStrTrim (orElseStr "truncate_end" "truncate_end"))
      = "truncate_end" := by decide
  have hnle : ¬ (((whitespaceStarts (tokNormalize u cfg text)).length : Int) ≤ N) := by omega
  have hmt : N.toNat < (whitespaceStarts (tokNormalize u cfg text)).length := by omega
  simp [truncateByTokens, hN0, hest, hstrat, tokenizeWhitespace, hm, hnle, hmt]

theorem truncateByTokens_est_le (u : UnicodeOps) (ex : ExtToks) (cfg : TokenizationConfig)
    (text : Str) (N : Int) (mode : String) (hN : 0 < N)
    (hest : cfg.estimate_only = true)
    (hle : ((tokNormalize u cfg text).length : Int) ≤ N * 4) :
    truncateByTokens u ex cfg text N mode = .ok (tokNormalize u cfg text) := by
  have hN0 : ¬ (N ≤ 0) := by omega
  simp [truncateByTokens, hN0, hest, hle]

theorem truncateByTokens_est_end (u : UnicodeOps) (ex : ExtToks) (cfg : TokenizationConfig)
    (text : Str) (N : Int) (hN : 0 < N)
    (hest : cfg.estimate_only = true)
    (hgt : N * 4 < ((tokNormalize u cfg text).length : Int)) :
    truncateByTokens u ex cfg text N "truncate_end"
      = .ok ((tokNormalize u cfg text).take (N * 4).toNat) := by
  have hN0 : ¬ (N ≤ 0) := by omega
  have hnle : ¬ (((tokNormalize u cfg text).length : Int) ≤ N * 4) := by omega
  have hnm : ¬ (("truncate_end" : String) = "truncate_middle") := by decide
  simp [truncateByTokens, hN0, hest, hnle, hnm]

/-- Counterexample to C5 as stated: with normalization flags on, truncating
"A İ" to 1 whitespace token yields "A " (lowercasing was skipped on the full
text because İ lowercases to two characters), but truncating "A " again
yields "a " — truncate_end is not idempotent. -/
theorem claim_C5_cx :
    truncateByTokens pyUnicode trivExt
        ⟨"whitespace", true, true, false, "o200k_base", "gpt2", 512⟩
        "A İ".data 1 "truncate_end" = .ok "A ".data ∧
    truncateByTokens pyUnicode trivExt
        ⟨"whitespace", true, true, false, "o200k_base", "gpt2", 512⟩
        "A ".data 1 "truncate_end" = .ok "a ".data ∧
    "a ".data ≠ "A ".data :=
  ⟨rfl, rfl, by decide⟩

set_option maxHeartbeats 1600000 in
/-- C5 (amended): when both normalization flags are off, truncate_end is
idempotent for the whitespace strategy and for estimate_only; and when the
text has more than N > 0 whitespace tokens, the result cuts at the start of
token N, so its whitespace token starts are exactly the first N token starts
of the input. -/
theorem claim_C5_amended (u : UnicodeOps) (ex : ExtToks) (cfg : TokenizationConfig)
    (text : Str) (N : Int)
    (hnu : cfg.normalize_unicode = false) (hlc : cfg.lowercase = false) :
    (cfg.estimate_only = false → effStrategy cfg = "whitespace" →
      (∀ t', truncateByTokens u ex cfg text N "truncate_end" = .ok t' →
        truncateByTokens u ex cfg t' N "truncate_end" = .ok t') ∧
      (0 < N → N < ((whitespaceStarts text).length : Int) →
        truncateByTokens u ex cfg text N "truncate_end"
          = .ok (text.take ((whitespaceStarts text).getD N.toNat 0)) ∧
        whitespaceStarts (text.take ((whitespaceStarts text).getD N.toNat 0))
          = (whitespaceStarts text).take N.toNat)) ∧
    (cfg.estimate_only = true →
      ∀ t', truncateByTokens u ex cfg text N "truncate_end" = .ok t' →
        truncateByTokens u ex cfg t' N "truncate_end" = .ok t') := by
  have htok : ∀ s : Str, tokNormalize u cfg s = s := tokNormalize_id u cfg hnu hlc
  constructor
  · intro hest hstrat
    constructor
    · intro t' ht'
      by_cases hN : N ≤ 0
      · have h1 : truncateByTokens u ex cfg text N "truncate_end" = .ok [] := by
          simp [truncateByTokens, hN]
        rw [h1] at ht'
        injection ht' with h
        subst h
        simp [truncateByTokens, hN]
      · have hN' : 0 < N := by omega
        by_cases hle : ((whitespaceStarts text).length : Int) ≤ N
        · have h1 := truncateByTokens_ws_noop u ex cfg text N "truncate_end" hN' hest hstrat
            (by rw [htok]; exact hle)
          rw [htok] at h1
          rw [h1] at ht'
          injection ht' with h
          subst h
          exact h1
        · push_neg at hle
          have h1 := truncateByTokens_ws_end u ex cfg text N hN' hest hstrat
            (by rw [htok]; exact hle)
          rw [htok] at h1
          rw [h1] at ht'
          injection ht' with h
          subst h
          have hmt : N.toNat < (whitespaceStarts text).length := by omega
          have hlen : ((whitespaceStarts
              (text.take ((whitespaceStarts text).getD N.toNat 0))).length : Int) ≤ N := by
            rw [whitespaceStarts_take_at text N.toNat hmt, List.length_take]
            omega
          have h2 := truncateByTokens_ws_noop u ex cfg
            (text.take ((whitespaceStarts text).getD N.toNat 0)) N "truncate_end" hN' hest
            hstrat (by rw [htok]; exact hlen)
          rw [htok] at h2
          exact h2
    · intro hN hgt
      have h1 := truncateByTokens_ws_end u ex cfg text N hN hest hstrat
        (by rw [htok]; exact hgt)
      rw [htok] at h1
      have hmt : N.toNat < (whitespaceStarts text).length := by omega
      exact ⟨h1, whitespaceStarts_take_at text N.toNat hmt⟩
  · intro hest t' ht'
    by_cases hN : N ≤ 0
    · have h1 : truncateByTokens u ex cfg text N "truncate_end" = .ok [] := by
        simp [truncateByTokens, hN]
      rw [h1] at ht'
      injection ht' with h
      subst h
      simp [truncateByTokens, hN]
    · have hN' : 0 < N := by omega
      by_cases hle : ((text.length : Int) ≤ N * 4)
      · have h1 := truncateByTokens_est_le u ex cfg text N "truncate_end" hN' hest
          (by rw [htok]; exact hle)
        rw [htok] at h1
        rw [h1] at ht'
        injection ht' with h
        subst h
        exact h1
      · push_neg at hle
        have h1 := truncateByTokens_est_end u ex cfg text N hN' hest
          (by rw [htok]; exact hle)
        rw [htok] at h1
        rw [h1] at ht'
        injection ht' with h
        subst h
        have hlen : (((text.take (N * 4).toNat).length : Int)) ≤ N * 4 := by
          rw [List.length_take]
          omega
        have h2 := truncateByTokens_est_le u ex cfg (text.take (N * 4).toNat) N
          "truncate_end" hN' hest (by rw [htok]; exact hlen)
        rw [htok] at h2
        exact h2

/-- Closed instance of the amended C5: truncating "a b c d e f g" to 3
whitespace tokens cuts at the start of token 3, and the result's token starts
are the first three starts of the input. -/
theorem claim_C5_witness :
    truncateByTokens pyUnicode trivExt
        ⟨"whitespace", false, false, false, "o200k_base", "gpt2", 512⟩
        "a b c d e f g".data 3 "truncate_end"
      = .ok ("a b c d e f g".data.take
          ((whitespaceStarts "a b c d e f g".data).getD (3 : Int).toNat 0)) ∧
    whitespaceStarts ("a b c d e f g".data.take
        ((whitespaceStarts "a b c d e f g".data).getD (3 : Int).toNat 0))
      = (whitespaceStarts "a b c d e f g".data).take (3 : Int).toNat :=
  ((claim_C5_amended pyUnicode trivExt
      ⟨"whitespace", false, false, false, "o200k_base", "gpt2", 512⟩
      "a b c d e f g".data 3 rfl rfl).1 rfl (by decide)).2 (by decide) (by decide)

/- ----------------------------------------------------------------------
Claim C1: the post-pass token bound of chunk_text.
---------------------------------------------------------------------- -/

theorem tokenWindowsGo_mem (S : List Nat) (textLen mt : Nat) :
    ∀ fuel st0 p, p ∈ tokenWindowsGo S textLen mt fuel st0 →
      ∃ st, st < S.length ∧
        p = (S.getD st 0,
          if min S.length (st + mt) < S.length then S.getD (min S.length (st + mt)) 0
          else textLen) := by
  intro fuel
  induction fuel with
  | zero =>
    intro st0 p hp
    simp [tokenWindowsGo] at hp
  | succ f ih =>
    intro st0 p hp
    simp only [tokenWindowsGo] at hp
    by_cases h : st0 < S.length
    · rw [if_pos h] at hp
      rcases List.mem_cons.mp hp with hp | hp
      · exact ⟨st0, h, hp⟩
      · exact ih _ p hp
    · rw [if_neg h] at hp
      cases hp

theorem countTokens_window_le (u : UnicodeOps) (ex : ExtToks) (tcfg : TokenizationConfig)
    (hstrat : tcfg.estimate_only = true ∨
      (tcfg.estimate_only = false ∧ effStrategy tcfg = "whitespace" ∧
        SpacePreservingLP u.nfkc ∧ SpacePreservingLP u.lower))
    (text : Str) (mt st : Nat)
    (hst : st < (tokenizeWithOffsets u ex tcfg text).token_starts.length) :
    countTokens u ex tcfg (pySlice text
        ((tokenizeWithOffsets u ex tcfg text).token_starts.getD st 0)
        (if min (tokenizeWithOffsets u ex tcfg text).token_starts.length (st + mt)
              < (tokenizeWithOffsets u ex tcfg text).token_starts.length
          then (tokenizeWithOffsets u ex tcfg text).token_starts.getD
              (min (tokenizeWithOffsets u ex tcfg text).token_starts.length (st + mt)) 0
          else (tokenizeWithOffsets u ex tcfg text).text.length))
      ≤ mt := by
  rcases hstrat with hest | ⟨hest, hws, hn, hl⟩
  · rw [tokenizeWithOffsets_starts_est u ex tcfg text hest] at hst ⊢
    rw [tokenizeWithOffsets_text_length]
    have hlen : (List.range' 0 ((text.length + 3) / 4) 4).length = (text.length + 3) / 4 := by
      rw [List.length_range']
    rw [hlen] at hst ⊢
    have hgd : ∀ k, k < (text.length + 3) / 4 →
        (List.range' 0 ((text.length + 3) / 4) 4).getD k 0 = 4 * k := by
      intro k hk
      rw [List.getD_eq_getElem _ _ (by rw [hlen]; exact hk), List.getElem_range']
      omega
    rw [hgd st hst, countTokens_est u ex tcfg _ hest]
    by_cases hlt : min ((text.length + 3) / 4) (st + mt) < (text.length + 3) / 4
    · rw [if_pos hlt, hgd _ (by omega)]
      simp only [pySlice, List.length_take, List.length_drop]
      omega
    · rw [if_neg hlt]
      simp only [pySlice, List.length_take, List.length_drop]
      omega
  · rw [tokenizeWithOffsets_starts_ws_spec u ex tcfg text hest hws hn hl] at hst ⊢
    rw [tokenizeWithOffsets_text_length]
    have hS := wsStartsSpec_pairwise text
    have ha : wsIsStart text ((wsStartsSpec text).getD st 0) = true := by
      rw [List.getD_eq_getElem _ _ hst]
      exact mem_wsStartsSpec.mp (List.getElem_mem _)
    rw [countTokens_ws_spec u ex tcfg _ hest hws hn hl,
      wsStartsSpec_pySlice text _ _ (Or.inr ha), List.length_map]
    by_cases hlt : min (wsStartsSpec text).length (st + mt) < (wsStartsSpec text).length
    · have hmin : min (wsStartsSpec text).length (st + mt) = st + mt := by omega
      rw [if_pos hlt, hmin,
        sorted_filter_window (wsStartsSpec text) hS st mt (by omega),
        List.length_take, List.length_drop]
      omega
    · rw [if_neg hlt,
        sorted_filter_tail_ge (wsStartsSpec text) hS st hst text.length
          (fun x hx => wsIsStart_lt_length (mem_wsStartsSpec.mp hx)),
        List.length_drop]
      omega

theorem splitBuildGo_bound (u : UnicodeOps) (ex : ExtToks) (tcfg : TokenizationConfig)
    (ccfg : ChunkingConfig) (chunk : Chunk) (text : Str) (baseChar baseLine : Int)
    (nl : List Nat) (lang parent : Option String) (M : Int) :
    ∀ spans : List (Nat × Nat),
      (∀ p ∈ spans, (countTokens u ex tcfg (pySlice text p.1 p.2) : Int) ≤ M) →
      ∀ ord, ∀ ch ∈ splitBuildGo u ex tcfg ccfg chunk text baseChar baseLine nl lang
        parent spans ord, ch.token_count ≤ M := by
  intro spans
  induction spans with
  | nil =>
    intro _ ord ch hch
    simp [splitBuildGo] at hch
  | cons p rest ih =>
    intro hspan ord ch hch
    obtain ⟨s, e⟩ := p
    simp only [splitBuildGo] at hch
    split at hch
    · exact ih (fun q hq => hspan q (List.mem_cons_of_mem _ hq)) _ ch hch
    · rcases List.mem_cons.mp hch with hch | hch
      · subst hch
        exact hspan (s, e) (List.mem_cons_self _ _)
      · exact ih (fun q hq => hspan q (List.mem_cons_of_mem _ hq)) _ ch hch

theorem buildChunksGo_count (u : UnicodeOps) (ex : ExtToks) (tcfg : TokenizationConfig)
    (ccfg : ChunkingConfig) (fp : String) (content : Str) (baseChar baseLine : Int)
    (nl : List Nat) (lang : Option String) (parent : Option String) (allowSmall : Bool) :
    ∀ (spans : List (Nat × Nat)) (ord : Int),
      ∀ ch ∈ buildChunksGo u ex tcfg ccfg fp content baseChar baseLine nl lang parent
        allowSmall spans ord,
        ch.token_count = (countTokens u ex tcfg ch.content : Int) := by
  intro spans
  induction spans with
  | nil =>
    intro ord ch hch
    simp [buildChunksGo] at hch
  | cons p rest ih =>
    intro ord ch hch
    obtain ⟨s, e⟩ := p
    simp only [buildChunksGo] at hch
    split at hch
    · exact ih _ ch hch
    · split at hch
      · exact ih _ ch hch
      · rcases List.mem_cons.mp hch with hch | hch
        · subst hch
          rfl
        · exact ih _ ch hch

theorem splitChunkByTokens_bound (u : UnicodeOps) (ex : ExtToks) (ccfg : ChunkingConfig)
    (tcfg : TokenizationConfig) (chunk : Chunk) (M : Int) (lang parent : Option String)
    (hM : 0 < M)
    (hcount : chunk.token_count = (countTokens u ex tcfg chunk.content : Int))
    (hstrat : tcfg.estimate_only = true ∨
      (tcfg.estimate_only = false ∧ effStrategy tcfg = "whitespace" ∧
        SpacePreservingLP u.nfkc ∧ SpacePreservingLP u.lower)) :
    ∀ ch ∈ splitChunkByTokens u ex ccfg tcfg chunk M lang parent,
      ch.token_count ≤ M := by
  intro ch hch
  simp only [splitChunkByTokens] at hch
  by_cases hle : (((tokenizeWithOffsets u ex tcfg chunk.content).token_starts.length : Int) ≤ M)
  · rw [if_pos hle] at hch
    rw [List.mem_singleton] at hch
    subst hch
    rw [hcount, countTokens_eq_starts_length]
    exact hle
  · rw [if_neg hle] at hch
    refine splitBuildGo_bound u ex tcfg ccfg chunk chunk.content chunk.char_start
      (if chunk.start_line = 0 then 1 else chunk.start_line) (nlPositions chunk.content)
      lang parent M _ ?_ _ ch hch
    intro p hp
    obtain ⟨st, hst, hpform⟩ := tokenWindowsGo_mem _ _ _ _ _ p hp
    have h1 : p.1 = (tokenizeWithOffsets u ex tcfg chunk.content).token_starts.getD st 0 := by
      rw [hpform]
    have h2 : p.2 = (if min (tokenizeWithOffsets u ex tcfg chunk.content).token_starts.length
          (st + M.toNat) < (tokenizeWithOffsets u ex tcfg chunk.content).token_starts.length
        then (tokenizeWithOffsets u ex tcfg chunk.content).token_starts.getD
          (min (tokenizeWithOffsets u ex tcfg chunk.content).token_starts.length (st + M.toNat)) 0
        else (tokenizeWithOffsets u ex tcfg chunk.content).text.length) := by
      rw [hpform]
    rw [h1, h2]
    have hw := countTokens_window_le u ex tcfg hstrat chunk.content M.toNat st hst
    omega

theorem postPass_bound (u : UnicodeOps) (ex : ExtToks) (ccfg : ChunkingConfig)
    (tcfg : TokenizationConfig) (lang parent : Option String) (chunks : List Chunk)
    (hM : 0 < ccfg.max_chunk_tokens)
    (hcnt : ∀ c ∈ chunks, c.token_count = (countTokens u ex tcfg c.content : Int))
    (hstrat : tcfg.estimate_only = true ∨
      (tcfg.estimate_only = false ∧ effStrategy tcfg = "whitespace" ∧
        SpacePreservingLP u.nfkc ∧ SpacePreservingLP u.lower)) :
    ∀ ch ∈ (if 0 < ccfg.max_chunk_tokens && !(chunks.isEmpty) then
        chunks.flatMap (fun c => if c.token_count ≤ ccfg.max_chunk_tokens then [c]
          else splitChunkByTokens u ex ccfg tcfg c ccfg.max_chunk_tokens lang parent)
      else chunks),
      ch.token_count ≤ ccfg.max_chunk_tokens := by
  intro ch hch
  by_cases he : chunks.isEmpty
  · have hnil : chunks = [] := List.isEmpty_iff.mp he
    subst hnil
    simp at hch
  · have he' : chunks.isEmpty = false := by
      rwa [Bool.not_eq_true] at he
    rw [if_pos (by rw [he']; simp [hM])] at hch
    obtain ⟨c, hc, hcm⟩ := List.mem_flatMap.mp hch
    by_cases hle : c.token_count ≤ ccfg.max_chunk_tokens
    · rw [if_pos hle] at hcm
      rw [List.mem_singleton] at hcm
      subst hcm
      exact hle
    · rw [if_neg hle] at hcm
      exact splitChunkByTokens_bound u ex ccfg tcfg c ccfg.max_chunk_tokens lang parent hM
        (hcnt c hc) hstrat ch hcm

/-- Counterexample to C1 as stated for every configuration: under the
huggingface strategy with the contract-satisfying context-dependent
tokenizer `hfCx` and max_chunk_tokens = 1, the over-limit chunk for "abcd"
is re-split at the original token boundaries into "ab" and "cd", but the
re-tokenized sub-chunks are never re-checked and each carries
token_count = 2 > max_chunk_tokens. -/
theorem claim_C1_cx :
    (0 : Int) < 1 ∧
    ∃ ch ∈ chunkText pyUnicode cxExt
        ⟨"fixed_chars", 100, 0, 0, 1, 100, 0, [], "suffix", 5, 3, false, false⟩
        ⟨"huggingface", false, false, false, "o200k_base", "gpt2", 512⟩
        "f.txt" "abcd".data 0 1 0,
      1 < ch.token_count :=
  ⟨by decide, by decide⟩

/-- C1 (amended): with max_chunk_tokens > 0, every chunk returned by
chunk_text has token_count ≤ max_chunk_tokens — over-limit chunks are
re-split by token windows of max_chunk_tokens — for the tokenizations whose
sub-slice counts the re-split controls: estimate_only, or the whitespace
strategy under space-preserving length-preserving normalization oracles.
(For tiktoken/huggingface the windows are cut at the original tokenization's
boundaries and the re-tokenized sub-chunks are not re-checked.) -/
theorem claim_C1 (u : UnicodeOps) (ex : ExtToks) (ccfg : ChunkingConfig)
    (tcfg : TokenizationConfig) (fp : String) (content : Str)
    (baseChar baseLine startingOrdinal : Int)
    (hM : 0 < ccfg.max_chunk_tokens)
    (hstrat : tcfg.estimate_only = true ∨
      (tcfg.estimate_only = false ∧ effStrategy tcfg = "whitespace" ∧
        SpacePreservingLP u.nfkc ∧ SpacePreservingLP u.lower)) :
    ∀ ch ∈ chunkText u ex ccfg tcfg fp content baseChar baseLine startingOrdinal,
      ch.token_count ≤ ccfg.max_chunk_tokens := by
  intro ch hch
  simp only [chunkText] at hch
  refine postPass_bound u ex ccfg tcfg (detectLanguage fp)
    (if ccfg.emit_parent_doc_id then some fp else none) _ hM ?_ hstrat ch hch
  intro c hc
  exact buildChunksGo_count u ex tcfg ccfg fp content baseChar baseLine _ _ _ _ _ _ c hc

/-- Closed instance of C1: a 12-character document under estimate_only
tokenization and max_chunk_tokens = 2 yields only chunks within the bound. -/
theorem claim_C1_witness :
    (chunkText pyUnicode trivExt
        ⟨"fixed_chars", 100, 0, 0, 2, 100, 0, [], "suffix", 5, 3, false, false⟩
        ⟨"whitespace", false, false, true, "o200k_base", "gpt2", 512⟩
        "f.txt" "abcdefghijkl".data 0 1 0).all
      (fun ch => decide (ch.token_count ≤ 2)) = true := by
  rw [List.all_eq_true]
  intro ch hch
  simpa using claim_C1 pyUnicode trivExt
    ⟨"fixed_chars", 100, 0, 0, 2, 100, 0, [], "suffix", 5, 3, false, false⟩
    ⟨"whitespace", false, false, true, "o200k_base", "gpt2", 512⟩
    "f.txt" "abcdefghijkl".data 0 1 0 (by decide) (Or.inl rfl) ch hch

/- ----------------------------------------------------------------------
Claim C6: prefix-separator splitting yields only positive-length spans.
---------------------------------------------------------------------- -/

theorem recSpansGo_pos (u : UnicodeOps) (ex : ExtToks) (tcfg : TokenizationConfig)
    (ccfg : ChunkingConfig) (content : Str) (seps : List Str) (keep : String)
    (maxDepth target : Int) :
    ∀ (d depth start endPos : Nat), maxDepth.toNat - depth ≤ d →
      ∀ p ∈ recSpansGo u ex tcfg ccfg content seps keep maxDepth target start endPos depth,
        p.1 < p.2 := by
  intro d
  induction d with
  | zero =>
    intro depth start endPos hd p hp
    rw [recSpansGo] at hp
    split at hp
    next h1 => cases hp
    next h1 =>
      split at hp
      next h2 =>
        rw [List.mem_singleton] at hp
        subst hp
        exact lt_of_not_le h1
      next h2 =>
        split at hp
        next h3 =>
          rw [List.mem_singleton] at hp
          subst hp
          exact lt_of_not_le h1
        next h3 =>
          exfalso
          omega
  | succ d ih =>
    intro depth start endPos hd p hp
    rw [recSpansGo] at hp
    split at hp
    next h1 => cases hp
    next h1 =>
      split at hp
      next h2 =>
        rw [List.mem_singleton] at hp
        subst hp
        exact lt_of_not_le h1
      next h2 =>
        split at hp
        next h3 =>
          rw [List.mem_singleton] at hp
          subst hp
          exact lt_of_not_le h1
        next h3 =>
          obtain ⟨q, hq, hp2⟩ := List.mem_flatMap.mp hp
          exact ih (depth + 1) q.1 q.2 (by omega) p hp2

/-- C6: separator splitting with a non-empty separator returns only
positive-length spans for every keep mode including prefix (leading or
consecutive separators produce no zero-length spans); the recursive
span descent likewise returns only positive-length spans (it is total by
construction, mirroring the source's depth bound); and the regression input
"\n\nA\n\nB" with separator "\n\n" and keep=prefix yields exactly the
positive spans (0,3) and (3,6). -/
theorem claim_C6 (u : UnicodeOps) (ex : ExtToks) (tcfg : TokenizationConfig)
    (ccfg : ChunkingConfig) :
    (∀ (content : Str) (start endPos : Nat) (sep : Str) (keep : String), sep ≠ [] →
      ∀ p ∈ splitSpanBySeparator u ex tcfg ccfg content start endPos sep keep,
        p.1 < p.2) ∧
    (∀ (seps : List Str) (keep : String) (maxDepth target : Int)
        (content : Str) (depth start endPos : Nat),
      ∀ p ∈ recSpansGo u ex tcfg ccfg content seps keep maxDepth target start endPos depth,
        p.1 < p.2) ∧
    splitSpanBySeparator u ex tcfg ccfg "\n\nA\n\nB".data 0 6 "\n\n".data "prefix"
      = [(0, 3), (3, 6)] := by
  refine ⟨?_, ?_, rfl⟩
  · intro content start endPos sep keep hsep p hp
    simp only [splitSpanBySeparator] at hp
    rw [if_neg hsep] at hp
    by_cases hk : keep = "prefix"
    · rw [if_pos hk] at hp
      split at hp
      · split at hp
        next h =>
          rw [List.mem_singleton] at hp
          subst hp
          exact h
        next =>
          cases hp
      · have h2 := (List.mem_filter.mp hp).2
        simp only [decide_eq_true_eq] at h2
        exact h2
    · rw [if_neg hk] at hp
      have h2 := (List.mem_filter.mp hp).2
      simp only [decide_eq_true_eq] at h2
      exact h2
  · intro seps keep maxDepth target content depth start endPos p hp
    exact recSpansGo_pos u ex tcfg ccfg content seps keep maxDepth target
      (maxDepth.toNat - depth) depth start endPos (le_refl _) p hp

/-- Closed instance of C6: every span of the regression split is
positive-length. -/
theorem claim_C6_witness :
    (splitSpanBySeparator pyUnicode trivExt
        ⟨"whitespace", false, false, false, "o200k_base", "gpt2", 512⟩
        ⟨"recursive", 500, 100, 50, 512, 100, 0, [], "prefix", 5, 3, false, false⟩
        "\n\nA\n\nB".data 0 6 "\n\n".data "prefix").all
      (fun p => decide (p.1 < p.2)) = true := by
  rw [List.all_eq_true]
  intro p hp
  simpa using (claim_C6 pyUnicode trivExt
      ⟨"whitespace", false, false, false, "o200k_base", "gpt2", 512⟩
      ⟨"recursive", 500, 100, 50, 512, 100, 0, [], "prefix", 5, 3, false, false⟩).1
    "\n\nA\n\nB".data 0 6 "\n\n".data "prefix" (by decide) p hp
